import Mathlib

/-!
Verification of the Spades game core (rule engine, scoring, AI bidding and
card selection) against its natural-language specification.

The definitions below are a shallow embedding of the TypeScript source:
  - `lib/game/types.ts`   : suits, ranks, cards, tricks, positions, teams
  - `lib/game/deck.ts`    : deck creation, dealing, hand sorting and analysis
  - `lib/game/rules.ts`   : trick winner, valid plays, bid estimation
  - `lib/game/scoring.ts` : round scoring, winner check
  - `lib/game/ai.ts`      : AI bidding and card selection

Modelling conventions:
  - JavaScript numbers are embedded as `Int` (scoring, bids, trick counts)
    or `Rat` (the fractional bid estimates).  The fractional arithmetic of
    the bid estimator is IEEE binary64 arithmetic in the source, so it is
    embedded through `roundToDouble`, which rounds a rational to 53
    significant bits (round to nearest, ties to even), and through the
    correctly rounded operations `dadd` and `dmul`; the literals `0.7`,
    `0.3` and `0.5` of the source denote the binary64 values `D07`, `D03`
    and `D05`.  Integer-valued additions of the source below `2^53` are
    exact in binary64 and are embedded as exact `Rat` additions.
  - A thrown exception is modelled as `Except.error` / `Option.none`.
  - `Math.random()` results are passed in as explicit rational parameters
    in `[0, 1)`; a shuffled deck is passed in as an arbitrary permutation
    of the fresh deck.
  - The `id` string of a card is determined by its suit and rank, so cards
    are compared by value rather than by id string.
  - The write-only `details : string[]` log of `calculateRoundScore` is
    omitted.
-/

namespace Spades

/-- Card suits, from `types.ts`. -/
inductive Suit where
  | spades
  | hearts
  | diamonds
  | clubs
deriving DecidableEq, Repr

/-- Card ranks, from `types.ts`. -/
inductive Rank where
  | two | three | four | five | six | seven | eight | nine | ten
  | J | Q | K | A
deriving DecidableEq, Repr

open Suit Rank

/-- Numeric values of ranks (`RANK_VALUES` in `types.ts`): 2 = 2 .. A = 14. -/
def RANK_VALUES : Rank → Nat
  | two => 2 | three => 3 | four => 4 | five => 5 | six => 6
  | seven => 7 | eight => 8 | nine => 9 | ten => 10
  | J => 11 | Q => 12 | K => 13 | A => 14

/-- Suit ordering for hand sorting (`SUIT_ORDER` in `deck.ts`). -/
def SUIT_ORDER : Suit → Nat
  | spades => 0 | hearts => 1 | diamonds => 2 | clubs => 3

/-- A playing card (`Card` in `types.ts`); the derived `id` string is
    determined by the suit and the rank and is therefore omitted. -/
structure Card where
  suit : Suit
  rank : Rank
deriving DecidableEq, Repr

/-- Table seats (`PlayerPosition` in `types.ts`). -/
inductive PlayerPosition where
  | south | west | north | east
deriving DecidableEq, Repr

/-- Team designations (`Team` in `types.ts`). -/
inductive Team where
  | player | opponent
deriving DecidableEq, Repr

/-- One play inside a trick: a card together with the seat that played it. -/
structure Play where
  card : Card
  player : PlayerPosition
deriving DecidableEq, Repr

/-- A trick in progress or completed (`Trick` in `types.ts`); the optional
    `winner` field is not needed by the verified functions. -/
structure Trick where
  cards : List Play
  leadSuit : Suit
deriving DecidableEq, Repr

/-- AI difficulty levels (`Difficulty` in `types.ts`). -/
inductive Difficulty where
  | easy | medium | hard
deriving DecidableEq, Repr

/-- Partner lookup (`getPartner` in `types.ts`). -/
def getPartner : PlayerPosition → PlayerPosition
  | PlayerPosition.south => PlayerPosition.north
  | PlayerPosition.north => PlayerPosition.south
  | PlayerPosition.east => PlayerPosition.west
  | PlayerPosition.west => PlayerPosition.east

/-- All four suits in declaration order (`SUITS` in `types.ts`). -/
def SUITS : List Suit := [spades, hearts, diamonds, clubs]

/-- All thirteen ranks from lowest to highest (`RANKS` in `types.ts`). -/
def RANKS : List Rank :=
  [two, three, four, five, six, seven, eight, nine, ten, J, Q, K, A]

/-! ## Deck (`deck.ts`) -/

/-- Fresh 52-card deck (`createDeck`): suits outer loop, ranks inner loop. -/
def createDeck : List Card :=
  SUITS.flatMap fun suit => RANKS.map fun rank => { suit := suit, rank := rank }

/-- Comparator used by `sortHand` as a boolean less-or-equal relation:
    ascending `SUIT_ORDER`, then descending `RANK_VALUES` within a suit. -/
def cardLE (a b : Card) : Bool :=
  decide (SUIT_ORDER a.suit < SUIT_ORDER b.suit ∨
    (SUIT_ORDER a.suit = SUIT_ORDER b.suit ∧
      RANK_VALUES b.rank ≤ RANK_VALUES a.rank))

/-- Sorts a hand by suit (spades, hearts, diamonds, clubs) then rank
    descending (`sortHand` in `deck.ts`). -/
def sortHand (cards : List Card) : List Card :=
  cards.mergeSort cardLE

/-- Cards of one suit in a hand (`countSuits` in `deck.ts`, read off per
    suit). -/
def countSuits (cards : List Card) (s : Suit) : Nat :=
  (cards.filter fun c => c.suit = s).length

/-- Cards of a given suit (`getCardsOfSuit` in `deck.ts`). -/
def getCardsOfSuit (cards : List Card) (suit : Suit) : List Card :=
  cards.filter fun card => card.suit = suit

/-- Number of spades in a hand (`countSpades` in `deck.ts`). -/
def countSpades (cards : List Card) : Nat :=
  (cards.filter fun card => card.suit = spades).length

/-- Number of aces, kings and queens in a hand (`countHighCards`). -/
def countHighCards (cards : List Card) : Nat :=
  (cards.filter fun card => card.rank = A ∨ card.rank = K ∨ card.rank = Q).length

/-- Round-robin deal (`dealCards` loop): element `i` of the deck goes to
    seat `i % 4` in the order south, west, north, east. -/
def deal4 : List Card → List Card × List Card × List Card × List Card
  | [] => ([], [], [], [])
  | c :: rest =>
    let h := deal4 rest
    (c :: h.2.2.2, h.1, h.2.1, h.2.2.1)

/-- Hands of the four seats after a deal. -/
structure Hands where
  south : List Card
  west : List Card
  north : List Card
  east : List Card
deriving DecidableEq, Repr

/-- Deals the (already shuffled) deck round-robin and sorts each hand
    (`dealCards` in `deck.ts`; the internal `shuffle` call is modelled by
    passing the shuffled deck as a parameter, see the spec's injectable
    RNG requirement). -/
def dealCards (deck : List Card) : Hands :=
  let h := deal4 deck
  { south := sortHand h.1
    west := sortHand h.2.1
    north := sortHand h.2.2.1
    east := sortHand h.2.2.2 }

/-! ## Rule engine (`rules.ts`) -/

/-- One step of the running-winner loop in `determineTrickWinner`:
    `w` is the current winning play, `p` the play under consideration. -/
def trickStep (leadSuit : Suit) (w p : Play) : Play :=
  if p.card.suit = spades ∧ ¬ w.card.suit = spades then
    p
  else if p.card.suit = spades ∧ w.card.suit = spades then
    (if RANK_VALUES p.card.rank > RANK_VALUES w.card.rank then p else w)
  else if ¬ p.card.suit = spades ∧ ¬ w.card.suit = spades then
    (if p.card.suit = leadSuit ∧ w.card.suit = leadSuit ∧
        RANK_VALUES p.card.rank > RANK_VALUES w.card.rank then
      p
    else if p.card.suit = leadSuit ∧ ¬ w.card.suit = leadSuit then
      p
    else
      w)
  else
    w

/-- Winning play of a trick: the loop of `determineTrickWinner`, folding
    over all plays with the first play as the initial winner. -/
def winningPlay (leadSuit : Suit) (c0 : Play) (cards : List Play) : Play :=
  cards.foldl (trickStep leadSuit) c0

/-- Determines the winner of a completed trick (`determineTrickWinner` in
    `rules.ts`); the thrown error is modelled as `Except.error`. -/
def determineTrickWinner (trick : Trick) : Except String PlayerPosition :=
  if trick.cards.length ≠ 4 then
    Except.error "Trick must have exactly 4 cards"
  else
    match trick.cards with
    | [] => Except.error "Trick must have exactly 4 cards"
    | c0 :: _ => Except.ok (winningPlay trick.leadSuit c0 trick.cards).player

/-- Condition of the leading branch of `getValidPlays`: the player leads,
    there is no trick, or the current trick has no cards yet. -/
def isLeadingNow (currentTrick : Option Trick) (isLeading : Bool) : Bool :=
  isLeading ||
    (match currentTrick with
     | none => true
     | some t => t.cards.isEmpty)

/-- Non-spade cards of a hand (the `nonSpades` filter of `getValidPlays`
    and of `selectMediumCard`). -/
def nonSpades (hand : List Card) : List Card :=
  hand.filter fun card => ¬ card.suit = spades

/-- Legal plays from a hand (`getValidPlays` in `rules.ts`). -/
def getValidPlays (hand : List Card) (currentTrick : Option Trick)
    (spadesBroken : Bool) (isLeading : Bool) : List Card :=
  if hand = [] then []
  else if isLeadingNow currentTrick isLeading then
    if spadesBroken then
      hand
    else
      if (nonSpades hand).length > 0 then nonSpades hand else hand
  else
    match currentTrick with
    | none => hand
    | some t =>
      if (getCardsOfSuit hand t.leadSuit).length > 0 then
        getCardsOfSuit hand t.leadSuit
      else hand

/-! ## IEEE binary64 arithmetic

The bid estimator of the source multiplies counts by the literals `0.7`,
`0.3` and `0.5` and adds the products as JavaScript numbers, i.e. as IEEE
binary64 doubles.  `roundToDouble` rounds a rational to the nearest value
with 53 significant bits (ties to even); it agrees with binary64 rounding
for every magnitude between `2^(-8)` and `2^8`, which covers every value
the estimator can produce. -/

/-- `2^e` as a rational, for an integer exponent `e`. -/
def pow2 (e : Int) : ℚ :=
  if 0 ≤ e then (((2:ℕ)^(e.toNat) : ℕ) : ℚ) else 1 / (((2:ℕ)^((-e).toNat) : ℕ) : ℚ)

/-- Binade exponents probed by `expOf`: -8 .. 8. -/
def expCandidates : List Int := (List.range 17).map fun i => (i : Int) - 8

/-- Binade exponent of `x`: the `e` with `2^e ≤ x < 2^(e+1)`. -/
def expOf (x : ℚ) : Int :=
  (expCandidates.find? fun e => decide (pow2 e ≤ x ∧ x < pow2 (e+1))).getD 0

/-- Round to the nearest integer, ties to even. -/
def rne (m : ℚ) : Int :=
  if m - ⌊m⌋ < 1/2 then ⌊m⌋
  else if m - ⌊m⌋ > 1/2 then ⌊m⌋ + 1
  else if ⌊m⌋ % 2 = 0 then ⌊m⌋ else ⌊m⌋ + 1

/-- Round a rational to the nearest IEEE binary64 value: scale into the
    53-bit mantissa range of the binade of `q`, round to the nearest
    integer with ties to even, and scale back. -/
def roundToDouble (q : ℚ) : ℚ :=
  if q = 0 then 0
  else if q < 0 then
    -((rne ((-q) * pow2 (52 - expOf (-q))) : ℚ) * pow2 (expOf (-q) - 52))
  else
    (rne (q * pow2 (52 - expOf q)) : ℚ) * pow2 (expOf q - 52)

/-- Correctly rounded binary64 addition. -/
def dadd (x y : ℚ) : ℚ := roundToDouble (x + y)

/-- Correctly rounded binary64 multiplication. -/
def dmul (x y : ℚ) : ℚ := roundToDouble (x * y)

/-- The binary64 value of the literal `0.7`. -/
def D07 : ℚ := roundToDouble (7/10)

/-- The binary64 value of the literal `0.3`. -/
def D03 : ℚ := roundToDouble (3/10)

/-- The binary64 value of the literal `0.5` (exactly `1/2`). -/
def D05 : ℚ := roundToDouble (5/10)

/-- Minimum-trick estimate of a hand (`estimateMinTricks` in `rules.ts`):
    aces count 1, protected kings 0.7, high spades (queen or better) 0.3,
    floored at the end.  The running `tricks` sum is a binary64 double:
    adding the ace count to the initial 0 is exact, the two fractional
    products and the two subsequent additions are rounded. -/
def estimateMinTricks (hand : List Card) : Int :=
  let aces := (hand.filter fun c => c.rank = A).length
  let protectedKings :=
    (hand.filter fun c => c.rank = K ∧ countSuits hand c.suit ≥ 2).length
  let highSpades :=
    (hand.filter fun c => c.suit = spades ∧ RANK_VALUES c.rank ≥ 12).length
  ⌊dadd (dadd (aces : ℚ) (dmul (protectedKings : ℚ) D07))
      (dmul (highSpades : ℚ) D03)⌋

/-! ## Scoring (`scoring.ts`) -/

/-- Result record of `calculateRoundScore` (the `details` log is omitted). -/
structure RoundScoreResult where
  points : Int
  bags : Int
  bagPenalty : Bool
  nilBonuses : Int
  nilPenalties : Int
deriving DecidableEq, Repr

/-- Result of `calculatePlayerBidResult` in `scoring.ts`. -/
structure BidResult where
  bid : Int
  tricks : Int
  isNil : Bool
  isBlindNil : Bool
  madeNil : Bool
  madeBid : Bool
deriving DecidableEq, Repr

/-- Per-player bid classification (`calculatePlayerBidResult`). -/
def calculatePlayerBidResult (bid tricks : Int) : BidResult :=
  let isBlindNil := decide (bid = -1)
  let isNil := decide (bid = 0) || isBlindNil
  { bid := bid
    tricks := tricks
    isNil := isNil
    isBlindNil := isBlindNil
    madeNil := isNil && decide (tricks = 0)
    madeBid := !isNil && decide (tricks ≥ bid) }

/-- Points contribution of the nil-handling branch of `calculateRoundScore`
    for one player (the branch is written out once per player there). -/
def nilScore (r : BidResult) : Int :=
  if r.isNil then
    (if r.madeNil then (if r.isBlindNil then 200 else 100)
     else (if r.isBlindNil then -200 else -100))
  else 0

/-- Amount the nil-handling branch adds to `nilBonuses` for one player. -/
def nilBonusOf (r : BidResult) : Int :=
  if r.isNil && r.madeNil then (if r.isBlindNil then 200 else 100) else 0

/-- Amount the nil-handling branch adds to `nilPenalties` for one player
    (the absolute value of the penalty). -/
def nilPenaltyOf (r : BidResult) : Int :=
  if r.isNil && !r.madeNil then (if r.isBlindNil then 200 else 100) else 0

/-- Round score for one team (`calculateRoundScore` in `scoring.ts`).
    Constants: 10 points per bid trick, nil 100, blind nil 200, bag
    threshold 10, bag penalty 100. -/
def calculateRoundScore (player1Bid player1Tricks player2Bid player2Tricks
    currentBags : Int) : RoundScoreResult :=
  let result1 := calculatePlayerBidResult player1Bid player1Tricks
  let result2 := calculatePlayerBidResult player2Bid player2Tricks
  -- nil handling for both players
  let nil1 : Int := nilScore result1
  let nil2 : Int := nilScore result2
  let nilBonuses := nilBonusOf result1 + nilBonusOf result2
  let nilPenalties := nilPenaltyOf result1 + nilPenaltyOf result2
  -- combined team bid and tricks, excluding nil bidders
  let teamBid := (if result1.isNil then 0 else result1.bid) +
    (if result2.isNil then 0 else result2.bid)
  let nonNilTricks := (if result1.isNil then 0 else result1.tricks) +
    (if result2.isNil then 0 else result2.tricks)
  let bidPoints : Int :=
    if teamBid > 0 then
      (if nonNilTricks ≥ teamBid then
        teamBid * 10 + (if nonNilTricks - teamBid > 0 then nonNilTricks - teamBid else 0)
      else
        -(teamBid * 10))
    else 0
  let newBags :=
    if teamBid > 0 ∧ nonNilTricks ≥ teamBid ∧ nonNilTricks - teamBid > 0 then
      currentBags + (nonNilTricks - teamBid)
    else currentBags
  let penalty := newBags ≥ 10
  { points := nil1 + nil2 + bidPoints + (if penalty then -100 else 0)
    bags := if penalty then newBags - 10 else newBags
    bagPenalty := penalty
    nilBonuses := nilBonuses
    nilPenalties := nilPenalties }

/-- Winner check (`checkWinner` in `scoring.ts`), winning score 500. -/
def checkWinner (playerTeamScore opponentTeamScore : Int) : Option Team :=
  let playerWon := playerTeamScore ≥ 500
  let opponentWon := opponentTeamScore ≥ 500
  if playerWon ∧ opponentWon then
    (if playerTeamScore > opponentTeamScore then some Team.player
     else if opponentTeamScore > playerTeamScore then some Team.opponent
     else none)
  else if playerWon then some Team.player
  else if opponentWon then some Team.opponent
  else none

/-! ## AI (`ai.ts`) -/

/-- State of one player as seen by the AI (`Player` in `types.ts`,
    restricted to the fields the AI reads). -/
structure Player where
  position : PlayerPosition
  hand : List Card
  bid : Option Int
  tricksWon : Int
deriving Repr

/-- Decision context handed to the AI (`AIContext` in `ai.ts`). -/
structure AIContext where
  player : Player
  partner : Player
  currentTrick : Option Trick
  spadesBroken : Bool
  difficulty : Difficulty
  cardsPlayed : List Card
  roundTricks : Int
deriving Repr

/-- Lowest-ranked card of a list (`findLowestCard` in `ai.ts`); the source
    throws on an empty list, modelled as `none`. The source reduces with
    the first card as the initial accumulator. -/
def findLowestCard : List Card → Option Card
  | [] => none
  | c :: rest =>
    some ((c :: rest).foldl
      (fun lowest card =>
        if RANK_VALUES card.rank < RANK_VALUES lowest.rank then card else lowest) c)

/-- Highest-ranked card of a list (`findHighestCard` in `ai.ts`). -/
def findHighestCard : List Card → Option Card
  | [] => none
  | c :: rest =>
    some ((c :: rest).foldl
      (fun highest card =>
        if RANK_VALUES card.rank > RANK_VALUES highest.rank then card else highest) c)

/-- JavaScript `bid || 0`: `null` becomes 0, any number (including 0 and
    -1, since `0 || 0` is 0) is kept. -/
def bidOrZero : Option Int → Int
  | none => 0
  | some b => b

/-- Bid-range clamp `Math.max(MIN_BID, Math.min(MAX_BID, b))` with
    MIN_BID = 1 and MAX_BID = 13. -/
def clampBid (b : Int) : Int := max 1 (min 13 b)

/-- Adjusted bid estimate shared by `getHintBid` and `calculateAIBid`:
    base estimate, +1 per spade-count threshold (4 and 6 spades), plus
    0.5 per void suit and 0.3 per singleton suit.  The `+= 1` additions
    act on small integers and are exact in binary64; the void/singleton
    adjustment and its addition to the running sum are rounded. -/
def adjustedEstimate (hand : List Card) : ℚ :=
  let spadeCount := countSpades hand
  let base0 : ℚ := (estimateMinTricks hand : ℚ)
  let base1 := if spadeCount ≥ 4 then base0 + 1 else base0
  let base2 := if spadeCount ≥ 6 then base1 + 1 else base1
  let voids := (SUITS.filter fun s => countSuits hand s = 0).length
  let singletons := (SUITS.filter fun s => countSuits hand s = 1).length
  dadd base2 (dadd (dmul (voids : ℚ) D05) (dmul (singletons : ℚ) D03))

/-- AI bid calculation (`calculateAIBid` in `ai.ts`).  `rEasy` models the
    `Math.random()` draw of the easy branch, `rNil` the nil-chance draw of
    the hard branch; both lie in `[0, 1)`. -/
def calculateAIBid (hand : List Card) (partnerBid : Option Int)
    (difficulty : Difficulty) (rEasy rNil : ℚ) : Int :=
  let spadeCount := countSpades hand
  let highCards := countHighCards hand
  let baseBid := adjustedEstimate hand
  match difficulty with
  | Difficulty.easy =>
    -- baseBid + Math.floor(Math.random() * 3) - 1: the floored random
    -- draw is a small exact integer, the two additions are binary64 adds
    clampBid (round (dadd (dadd baseBid (⌊rEasy * 3⌋ : ℚ)) (-1)))
  | Difficulty.medium =>
    let b := round baseBid
    let b' :=
      match partnerBid with
      | some pb => if pb ≥ 0 ∧ b + pb > 11 then max 1 (b - 1) else b
      | none => b
    clampBid b'
  | Difficulty.hard =>
    let b := round baseBid
    let b' :=
      match partnerBid with
      | some pb =>
        if pb ≥ 0 ∧ b + pb > 12 then max 1 (b - 2)
        else if pb ≥ 0 ∧ b + pb < 6 then min 8 (b + 1)
        else b
      | none => b
    if baseBid ≤ 1 ∧ spadeCount ≤ 2 ∧ highCards = 0 ∧ rNil < 3 / 10 then 0
    else clampBid b'

/-- One step of the running-highest loop of `getHighestInTrick` in
    `ai.ts` (the non-spade branch is phrased with a disjunction there,
    unlike `trickStep`). -/
def ghStep (leadSuit : Suit) (h p : Play) : Play :=
  if p.card.suit = spades ∧ ¬ h.card.suit = spades then
    p
  else if p.card.suit = spades ∧ h.card.suit = spades then
    (if RANK_VALUES p.card.rank > RANK_VALUES h.card.rank then p else h)
  else if ¬ p.card.suit = spades ∧ ¬ h.card.suit = spades then
    (if p.card.suit = leadSuit ∧ (¬ h.card.suit = leadSuit ∨
        RANK_VALUES p.card.rank > RANK_VALUES h.card.rank) then
      p
    else
      h)
  else
    h

/-- Highest play currently in a trick (`getHighestInTrick` in `ai.ts`);
    the source indexes `trick.cards[0]`, so an empty trick is `none`. -/
def getHighestInTrick (trick : Trick) : Option Play :=
  match trick.cards with
  | [] => none
  | p :: _ => some (trick.cards.foldl (ghStep trick.leadSuit) p)

/-- Filter predicate for cards able to beat the current highest play,
    shared by the medium/hard following logic and `getHintCard`. -/
def canBeat (highest : Play) (card : Card) : Bool :=
  if card.suit = spades ∧ ¬ highest.card.suit = spades then true
  else if card.suit = highest.card.suit then
    decide (RANK_VALUES card.rank > RANK_VALUES highest.card.rank)
  else false

/-- JavaScript index `Math.floor(r * list.length)` into a list; `none`
    when out of range (`undefined` in the source). -/
def randIndex (l : List Card) (r : ℚ) : Option Card :=
  l.get? (⌊r * (l.length : ℚ)⌋).toNat

/-- Easy AI card selection (`selectEasyCard` in `ai.ts`): random card with
    probability 0.7, otherwise the lowest card. -/
def selectEasyCard (validPlays : List Card) (rc ri : ℚ) : Option Card :=
  if validPlays = [] then none
  else if rc < 7 / 10 ∨ validPlays.length = 1 then randIndex validPlays ri
  else findLowestCard validPlays

/-- Medium AI card selection (`selectMediumCard` in `ai.ts`). -/
def selectMediumCard (validPlays : List Card) (currentTrick : Option Trick)
    (rc ri : ℚ) : Option Card :=
  if validPlays = [] then none
  else if validPlays.length = 1 then validPlays.get? 0
  else if isLeadingNow currentTrick false then
    -- leading: prefer a high non-spade
    if (nonSpades validPlays).length > 0 then
      (if rc < 6 / 10 then
        ((nonSpades validPlays).mergeSort
          (fun a b => decide (RANK_VALUES b.rank ≤ RANK_VALUES a.rank))).get? 0
      else
        randIndex ((nonSpades validPlays).mergeSort
          (fun a b => decide (RANK_VALUES b.rank ≤ RANK_VALUES a.rank))) ri)
    else validPlays.get? 0
  else
    match currentTrick with
    | none => none
    | some t =>
      match getHighestInTrick t with
      | none => none
      | some highestPlayed =>
        let winningCards := validPlays.filter (canBeat highestPlayed)
        if winningCards.length > 0 then findLowestCard winningCards
        else findLowestCard validPlays

/-- Hard AI leading logic (`selectHardLead` in `ai.ts`). -/
def selectHardLead (validPlays : List Card) (player : Player) : Option Card :=
  if validPlays = [] then none
  else if validPlays.length = 1 then validPlays.get? 0
  else
    let tricksNeeded := bidOrZero player.bid - player.tricksWon
    if tricksNeeded ≤ 0 then findLowestCard validPlays
    else
      let aces := validPlays.filter fun c => c.rank = A ∧ ¬ c.suit = spades
      match aces with
      | a :: _ => some a
      | [] =>
        -- longest suit among the four entries of countSuits, first maximum
        let entries : List (Suit × Nat) :=
          [(spades, countSuits validPlays spades),
           (hearts, countSuits validPlays hearts),
           (diamonds, countSuits validPlays diamonds),
           (clubs, countSuits validPlays clubs)]
        let longestSuit :=
          (entries.tail.foldl (fun a b => if b.2 > a.2 then b else a)
            (spades, countSuits validPlays spades)).1
        let longestSuitCards := validPlays.filter fun c => c.suit = longestSuit
        if longestSuitCards.length > 0 then findHighestCard longestSuitCards
        else validPlays.get? 0

/-- Hard AI following logic (`selectHardFollow` in `ai.ts`). -/
def selectHardFollow (validPlays : List Card) (currentTrick : Trick)
    (player : Player) : Option Card :=
  if validPlays = [] then none
  else if validPlays.length = 1 then validPlays.get? 0
  else
    match getHighestInTrick currentTrick with
    | none => none
    | some highestPlayed =>
      let partnerPos := getPartner player.position
      let partnerPlayed := currentTrick.cards.find? fun c => c.player = partnerPos
      let partnerIsWinning := partnerPlayed.isSome ∧ highestPlayed.player = partnerPos
      if partnerIsWinning then findLowestCard validPlays
      else
        let winningCards := validPlays.filter (canBeat highestPlayed)
        if winningCards.length > 0 then
          (if bidOrZero player.bid - player.tricksWon > 0 then
            findLowestCard winningCards
          else findLowestCard validPlays)
        else findLowestCard validPlays

/-- Hard AI card selection (`selectHardCard` in `ai.ts`); the computed
    `remainingCards` are passed to the branches but never used there. -/
def selectHardCard (validPlays : List Card) (currentTrick : Option Trick)
    (context : AIContext) : Option Card :=
  if isLeadingNow currentTrick false then
    selectHardLead validPlays context.player
  else
    match currentTrick with
    | none => none
    | some t => selectHardFollow validPlays t context.player

/-- Top-level AI card selection (`selectAICard` in `ai.ts`).  `rc` and
    `ri` model the `Math.random()` draws of the easy/medium branches. -/
def selectAICard (context : AIContext) (rc ri : ℚ) : Option Card :=
  let hand := context.player.hand
  if hand = [] then none
  else
    let validPlays := getValidPlays hand context.currentTrick
      context.spadesBroken (isLeadingNow context.currentTrick false)
    if validPlays = [] then hand.get? 0
    else if validPlays.length = 1 then validPlays.get? 0
    else
      match context.difficulty with
      | Difficulty.easy => selectEasyCard validPlays rc ri
      | Difficulty.medium => selectMediumCard validPlays context.currentTrick rc ri
      | Difficulty.hard => selectHardCard validPlays context.currentTrick context

/-! ## Helper lemmas -/

/-- A fold that at each step keeps either the accumulator or the new
    element ends on the initial value or a list element. -/
lemma foldl_choice_mem {α : Type} (f : α → α → α)
    (hf : ∀ a b, f a b = a ∨ f a b = b) (l : List α) (i : α) :
    l.foldl f i = i ∨ l.foldl f i ∈ l := by
  induction l generalizing i with
  | nil => exact Or.inl rfl
  | cons a l ih =>
    rw [List.foldl_cons]
    rcases ih (f i a) with h | h
    · rcases hf i a with h2 | h2
      · exact Or.inl (h.trans h2)
      · exact Or.inr (by rw [h, h2]; exact List.mem_cons_self a l)
    · exact Or.inr (List.mem_cons_of_mem a h)

lemma RANK_VALUES_le (r : Rank) : RANK_VALUES r ≤ 14 := by
  cases r <;> simp [RANK_VALUES]

lemma RANK_VALUES_ge (r : Rank) : 2 ≤ RANK_VALUES r := by
  cases r <;> simp [RANK_VALUES]

/-- Strength of a card in a trick with the given lead suit: spades beat
    lead-suit cards beat off-suit cards, ties broken by rank.  Encoded as
    a single natural number. -/
def strength (lead : Suit) (c : Card) : Nat :=
  if c.suit = spades then 200 + RANK_VALUES c.rank
  else if c.suit = lead then 100 + RANK_VALUES c.rank
  else 0

lemma trickStep_eq_or (lead : Suit) (w p : Play) :
    trickStep lead w p = w ∨ trickStep lead w p = p := by
  unfold trickStep; split_ifs <;> simp

/-- The running-winner step keeps exactly the stronger of the two plays. -/
lemma trickStep_strength (lead : Suit) (w p : Play) :
    strength lead (trickStep lead w p).card =
      max (strength lead w.card) (strength lead p.card) := by
  have hw14 := RANK_VALUES_le w.card.rank
  have hp14 := RANK_VALUES_le p.card.rank
  have hw2 := RANK_VALUES_ge w.card.rank
  have hp2 := RANK_VALUES_ge p.card.rank
  by_cases hp : p.card.suit = spades <;> by_cases hw : w.card.suit = spades <;>
    by_cases hpl : p.card.suit = lead <;> by_cases hwl : w.card.suit = lead <;>
    simp_all [trickStep, strength] <;>
    first
    | omega
    | (split_ifs <;> (try simp_all) <;> omega)

lemma winningPlay_strength_init (lead : Suit) (l : List Play) (i : Play) :
    strength lead i.card ≤ strength lead ((l.foldl (trickStep lead) i).card) := by
  induction l generalizing i with
  | nil => simp
  | cons a l ih =>
    rw [List.foldl_cons]
    refine le_trans ?_ (ih (trickStep lead i a))
    rw [trickStep_strength]
    exact le_max_left _ _

lemma winningPlay_strength_mem (lead : Suit) (l : List Play) (i : Play) :
    ∀ x ∈ l, strength lead x.card ≤
      strength lead ((l.foldl (trickStep lead) i).card) := by
  induction l generalizing i with
  | nil => intro x hx; simp at hx
  | cons a l ih =>
    intro x hx
    rw [List.foldl_cons]
    rcases List.mem_cons.mp hx with h | h
    · rw [h]
      refine le_trans ?_ (winningPlay_strength_init lead l (trickStep lead i a))
      rw [trickStep_strength]
      exact le_max_right _ _
    · exact ih (trickStep lead i a) x h

lemma winningPlay_mem (lead : Suit) (l : List Play) (i : Play) :
    l.foldl (trickStep lead) i = i ∨ l.foldl (trickStep lead) i ∈ l :=
  foldl_choice_mem _ (trickStep_eq_or lead) l i

/-- Strength of a spade is above 200, strength of a non-spade is below. -/
lemma strength_spade_iff (lead : Suit) (c : Card) :
    c.suit = spades ↔ 200 ≤ strength lead c := by
  have h14 := RANK_VALUES_le c.rank
  constructor
  · intro h
    unfold strength
    rw [if_pos h]
    omega
  · intro h
    by_contra hc
    simp only [strength, if_neg hc] at h
    split_ifs at h <;> omega

lemma strength_lead_suit (lead : Suit) (c : Card) (hns : ¬ c.suit = spades) :
    c.suit = lead ↔ 100 ≤ strength lead c := by
  have h14 := RANK_VALUES_le c.rank
  constructor
  · intro h
    unfold strength
    rw [if_neg hns, if_pos h]
    omega
  · intro h
    by_contra hc
    simp [strength, hns, hc] at h

/-! ## C1: trick winner resolution -/

/-- C1.  For a trick of exactly 4 plays whose lead suit is the suit of the
    first play, `determineTrickWinner` returns the player of a play holding
    the highest-ranked spade if any spade was played, else the player of a
    play holding the highest-ranked lead-suit card; the winning card is
    always a spade or of the lead suit. -/
theorem determineTrickWinner_spec (trick : Trick) (p0 : Play) (rest : List Play)
    (hc : trick.cards = p0 :: rest) (h4 : trick.cards.length = 4)
    (hl : p0.card.suit = trick.leadSuit) :
    ∃ w ∈ trick.cards,
      determineTrickWinner trick = Except.ok w.player ∧
      ((∃ p ∈ trick.cards, p.card.suit = Suit.spades) →
        w.card.suit = Suit.spades ∧
          ∀ p ∈ trick.cards, p.card.suit = Suit.spades →
            RANK_VALUES p.card.rank ≤ RANK_VALUES w.card.rank) ∧
      ((∀ p ∈ trick.cards, ¬ p.card.suit = Suit.spades) →
        w.card.suit = trick.leadSuit ∧
          ∀ p ∈ trick.cards, p.card.suit = trick.leadSuit →
            RANK_VALUES p.card.rank ≤ RANK_VALUES w.card.rank) ∧
      (w.card.suit = Suit.spades ∨ w.card.suit = trick.leadSuit) := by
  set lead := trick.leadSuit with hlead
  set w := winningPlay lead p0 trick.cards with hw
  have hmem : w ∈ trick.cards := by
    rcases winningPlay_mem lead trick.cards p0 with h | h
    · rw [hw, winningPlay, h, hc]; exact List.mem_cons_self _ _
    · exact h
  have hinit : strength lead p0.card ≤ strength lead w.card :=
    winningPlay_strength_init lead trick.cards p0
  have hge : ∀ x ∈ trick.cards, strength lead x.card ≤ strength lead w.card :=
    winningPlay_strength_mem lead trick.cards p0
  have hspadecase : (∃ p ∈ trick.cards, p.card.suit = Suit.spades) →
      w.card.suit = Suit.spades ∧
        ∀ p ∈ trick.cards, p.card.suit = Suit.spades →
          RANK_VALUES p.card.rank ≤ RANK_VALUES w.card.rank := by
    rintro ⟨p, hp, hps⟩
    have h1 : 200 ≤ strength lead p.card := (strength_spade_iff lead p.card).mp hps
    have h2 : 200 ≤ strength lead w.card := le_trans h1 (hge p hp)
    have hws : w.card.suit = Suit.spades := (strength_spade_iff lead w.card).mpr h2
    refine ⟨hws, fun q hq hqs => ?_⟩
    have hq2 := hge q hq
    simp [strength, hqs, hws] at hq2
    omega
  have hnospadecase : (∀ p ∈ trick.cards, ¬ p.card.suit = Suit.spades) →
      w.card.suit = lead ∧
        ∀ p ∈ trick.cards, p.card.suit = lead →
          RANK_VALUES p.card.rank ≤ RANK_VALUES w.card.rank := by
    intro hns
    have hp0mem : p0 ∈ trick.cards := by rw [hc]; exact List.mem_cons_self _ _
    have hp0ns : ¬ p0.card.suit = Suit.spades := hns p0 hp0mem
    have hlns : ¬ lead = Suit.spades := fun he => hp0ns (hl.trans he)
    have h1 : 100 ≤ strength lead p0.card :=
      (strength_lead_suit lead p0.card hp0ns).mp hl
    have h2 : 100 ≤ strength lead w.card := le_trans h1 hinit
    have hwl : w.card.suit = lead :=
      (strength_lead_suit lead w.card (hns w hmem)).mpr h2
    refine ⟨hwl, fun q hq hql => ?_⟩
    have hq2 := hge q hq
    simp [strength, hns q hq, hns w hmem, hql, hwl, hlns] at hq2
    omega
  refine ⟨w, hmem, ?_, hspadecase, hnospadecase, ?_⟩
  · unfold determineTrickWinner
    rw [if_neg (by omega)]
    split
    · rename_i heq
      rw [hc] at heq
      simp at heq
    · rename_i c0 tl heq
      rw [hc] at heq
      injection heq with h1 h2
      rw [← h1]
  · by_cases hsp : ∃ p ∈ trick.cards, p.card.suit = Suit.spades
    · exact Or.inl (hspadecase hsp).1
    · push_neg at hsp
      exact Or.inr (hnospadecase hsp).1

/-- Example trick of the source documentation: hearts led, one low spade
    played by west. -/
def exampleTrick : Trick :=
  { cards := [⟨⟨Suit.hearts, Rank.A⟩, PlayerPosition.south⟩,
              ⟨⟨Suit.spades, Rank.two⟩, PlayerPosition.west⟩,
              ⟨⟨Suit.hearts, Rank.K⟩, PlayerPosition.north⟩,
              ⟨⟨Suit.hearts, Rank.Q⟩, PlayerPosition.east⟩],
    leadSuit := Suit.hearts }

/-- Witness for C1 at the documentation's example trick. -/
theorem determineTrickWinner_spec_witness :
    ∃ w ∈ exampleTrick.cards,
      determineTrickWinner exampleTrick = Except.ok w.player ∧
      ((∃ p ∈ exampleTrick.cards, p.card.suit = Suit.spades) →
        w.card.suit = Suit.spades ∧
          ∀ p ∈ exampleTrick.cards, p.card.suit = Suit.spades →
            RANK_VALUES p.card.rank ≤ RANK_VALUES w.card.rank) ∧
      ((∀ p ∈ exampleTrick.cards, ¬ p.card.suit = Suit.spades) →
        w.card.suit = exampleTrick.leadSuit ∧
          ∀ p ∈ exampleTrick.cards, p.card.suit = exampleTrick.leadSuit →
            RANK_VALUES p.card.rank ≤ RANK_VALUES w.card.rank) ∧
      (w.card.suit = Suit.spades ∨ w.card.suit = exampleTrick.leadSuit) :=
  determineTrickWinner_spec exampleTrick
    ⟨⟨Suit.hearts, Rank.A⟩, PlayerPosition.south⟩
    [⟨⟨Suit.spades, Rank.two⟩, PlayerPosition.west⟩,
     ⟨⟨Suit.hearts, Rank.K⟩, PlayerPosition.north⟩,
     ⟨⟨Suit.hearts, Rank.Q⟩, PlayerPosition.east⟩]
    rfl rfl rfl

/-! ## C9: trick winner fail-fast -/

/-- C9.  `determineTrickWinner` fails (throws, modelled as `Except.error`)
    exactly when the trick does not have exactly 4 plays, and it never
    returns a winner for such a trick. -/
theorem determineTrickWinner_fails_iff (trick : Trick) :
    ((∃ e, determineTrickWinner trick = Except.error e) ↔ trick.cards.length ≠ 4) ∧
    ∀ pos, determineTrickWinner trick = Except.ok pos → trick.cards.length = 4 := by
  by_cases h : trick.cards.length = 4
  · obtain ⟨c0, tl, hc⟩ : ∃ c0 tl, trick.cards = c0 :: tl := by
      cases hcc : trick.cards with
      | nil => rw [hcc] at h; simp at h
      | cons a b => exact ⟨a, b, rfl⟩
    have hok : determineTrickWinner trick =
        Except.ok (winningPlay trick.leadSuit c0 trick.cards).player := by
      unfold determineTrickWinner
      rw [if_neg (by omega)]
      split
      · rename_i heq
        rw [hc] at heq
        simp at heq
      · rename_i c0' tl' heq
        rw [hc] at heq
        injection heq with h1 h2
        rw [← h1]
    rw [hok]
    constructor
    · constructor
      · rintro ⟨e, he⟩
        exact Except.noConfusion he
      · intro hne
        exact absurd h hne
    · intro pos _
      exact h
  · have herr : determineTrickWinner trick =
        Except.error "Trick must have exactly 4 cards" := by
      unfold determineTrickWinner
      rw [if_pos h]
    rw [herr]
    constructor
    · simp [h]
    · intro pos hpos
      exact absurd hpos (by simp)

/-- Witness for C9 at a concrete 1-play trick: the function errors. -/
theorem determineTrickWinner_fails_iff_witness :
    ∃ e, determineTrickWinner
      { cards := [⟨⟨Suit.hearts, Rank.A⟩, PlayerPosition.south⟩],
        leadSuit := Suit.hearts } = Except.error e :=
  (determineTrickWinner_fails_iff _).1.mpr (by decide)

/-! ## C6: winner check -/

/-- C6.  `checkWinner` names a team exactly when that team has at least
    500 points and strictly more than the other team; an exact tie at 500
    or above, and any state where neither team reaches 500, yield `none`. -/
theorem checkWinner_spec (p o : Int) :
    (checkWinner p o = some Team.player ↔ 500 ≤ p ∧ o < p) ∧
    (checkWinner p o = some Team.opponent ↔ 500 ≤ o ∧ p < o) ∧
    (checkWinner p o = none ↔
      ((p < 500 ∧ o < 500) ∨ (500 ≤ p ∧ 500 ≤ o ∧ p = o))) := by
  simp only [checkWinner]
  split_ifs <;> refine ⟨?_, ?_, ?_⟩ <;> simp <;> omega

/-! ## C2: valid plays -/

lemma nonSpades_subset (hand : List Card) : ∀ c ∈ nonSpades hand, c ∈ hand :=
  fun c hc => (List.mem_filter.mp hc).1

lemma getCardsOfSuit_subset (hand : List Card) (s : Suit) :
    ∀ c ∈ getCardsOfSuit hand s, c ∈ hand :=
  fun c hc => (List.mem_filter.mp hc).1

lemma getValidPlays_lead_eq (hand : List Card) (trick : Option Trick)
    (sb lead : Bool) (hh : hand ≠ []) (hA : isLeadingNow trick lead = true) :
    getValidPlays hand trick sb lead =
      if sb then hand
      else if (nonSpades hand).length > 0 then nonSpades hand else hand := by
  unfold getValidPlays
  rw [if_neg hh, if_pos hA]

lemma getValidPlays_follow_eq (hand : List Card) (t : Trick)
    (sb lead : Bool) (hh : hand ≠ [])
    (hA : ¬ isLeadingNow (some t) lead = true) :
    getValidPlays hand (some t) sb lead =
      if (getCardsOfSuit hand t.leadSuit).length > 0 then
        getCardsOfSuit hand t.leadSuit
      else hand := by
  unfold getValidPlays
  rw [if_neg hh, if_neg hA]

lemma getValidPlays_none_follow_eq (hand : List Card)
    (sb lead : Bool) (hh : hand ≠ [])
    (hA : ¬ isLeadingNow none lead = true) :
    getValidPlays hand none sb lead = hand := by
  unfold getValidPlays
  rw [if_neg hh, if_neg hA]

lemma getValidPlays_subset (hand : List Card) (trick : Option Trick)
    (sb lead : Bool) : ∀ c ∈ getValidPlays hand trick sb lead, c ∈ hand := by
  intro c hc
  by_cases hh : hand = []
  · rw [hh] at hc ⊢
    simpa [getValidPlays] using hc
  · by_cases hA : isLeadingNow trick lead = true
    · rw [getValidPlays_lead_eq hand trick sb lead hh hA] at hc
      split_ifs at hc
      · exact hc
      · exact nonSpades_subset hand c hc
      · exact hc
    · rcases trick with _ | t
      · rw [getValidPlays_none_follow_eq hand sb lead hh hA] at hc
        exact hc
      · rw [getValidPlays_follow_eq hand t sb lead hh hA] at hc
        split_ifs at hc
        · exact getCardsOfSuit_subset hand t.leadSuit c hc
        · exact hc

lemma getValidPlays_ne_nil (hand : List Card) (trick : Option Trick)
    (sb lead : Bool) (h : hand ≠ []) :
    getValidPlays hand trick sb lead ≠ [] := by
  by_cases hA : isLeadingNow trick lead = true
  · rw [getValidPlays_lead_eq hand trick sb lead h hA]
    split_ifs with hB hC
    · exact h
    · exact List.ne_nil_of_length_pos hC
    · exact h
  · rcases trick with _ | t
    · rw [getValidPlays_none_follow_eq hand sb lead h hA]
      exact h
    · rw [getValidPlays_follow_eq hand t sb lead h hA]
      split_ifs with hD
      · exact List.ne_nil_of_length_pos hD
      · exact h

/-- C2.  Case equations of `getValidPlays`: leading with spades broken
    gives the whole hand; leading with spades unbroken gives the non-spade
    cards unless the hand holds only spades; following gives the lead-suit
    cards if any are held, else the whole hand; and for a non-empty hand
    the result is non-empty and a subset of the hand. -/
theorem getValidPlays_spec (hand : List Card) (trick : Option Trick)
    (sb lead : Bool) :
    (isLeadingNow trick lead = true → sb = true →
      getValidPlays hand trick sb lead = hand) ∧
    (isLeadingNow trick lead = true → sb = false →
      ((nonSpades hand ≠ [] →
          getValidPlays hand trick sb lead = nonSpades hand) ∧
       (nonSpades hand = [] →
          getValidPlays hand trick sb lead = hand))) ∧
    (∀ t, trick = some t → isLeadingNow trick lead = false →
      ((getCardsOfSuit hand t.leadSuit ≠ [] →
          getValidPlays hand trick sb lead = getCardsOfSuit hand t.leadSuit) ∧
       (getCardsOfSuit hand t.leadSuit = [] →
          getValidPlays hand trick sb lead = hand))) ∧
    (hand ≠ [] →
      getValidPlays hand trick sb lead ≠ [] ∧
      ∀ c ∈ getValidPlays hand trick sb lead, c ∈ hand) := by
  refine ⟨?_, ?_, ?_, fun hne =>
    ⟨getValidPlays_ne_nil hand trick sb lead hne,
     getValidPlays_subset hand trick sb lead⟩⟩
  · intro hA hB
    by_cases hh : hand = []
    · rw [hh]
      rfl
    · rw [getValidPlays_lead_eq hand trick sb lead hh hA, if_pos hB]
  · intro hA hB
    constructor
    · intro hne
      by_cases hh : hand = []
      · rw [hh] at hne
        simp [nonSpades] at hne
      · rw [getValidPlays_lead_eq hand trick sb lead hh hA,
          if_neg (by rw [hB]; exact Bool.false_ne_true),
          if_pos (List.length_pos.mpr hne)]
    · intro hnil
      by_cases hh : hand = []
      · rw [hh]
        rfl
      · rw [getValidPlays_lead_eq hand trick sb lead hh hA,
          if_neg (by rw [hB]; exact Bool.false_ne_true),
          if_neg (by rw [hnil]; simp)]
  · rintro t rfl hA
    have hA' : ¬ isLeadingNow (some t) lead = true := by
      rw [hA]
      exact Bool.false_ne_true
    constructor
    · intro hne
      by_cases hh : hand = []
      · rw [hh] at hne
        simp [getCardsOfSuit] at hne
      · rw [getValidPlays_follow_eq hand t sb lead hh hA',
          if_pos (List.length_pos.mpr hne)]
    · intro hnil
      by_cases hh : hand = []
      · rw [hh]
        rfl
      · rw [getValidPlays_follow_eq hand t sb lead hh hA',
          if_neg (by rw [hnil]; simp)]

/-- Witness for C2 at the spec's end-to-end example: hand spade-2 and
    heart-A, a heart was led, spades unbroken, not leading: only the
    heart ace is legal. -/
theorem getValidPlays_spec_witness :
    getValidPlays [⟨Suit.spades, Rank.two⟩, ⟨Suit.hearts, Rank.A⟩]
      (some { cards := [⟨⟨Suit.hearts, Rank.K⟩, PlayerPosition.south⟩],
              leadSuit := Suit.hearts }) false false =
      [⟨Suit.hearts, Rank.A⟩] := by
  have h := ((getValidPlays_spec
    [⟨Suit.spades, Rank.two⟩, ⟨Suit.hearts, Rank.A⟩]
    (some { cards := [⟨⟨Suit.hearts, Rank.K⟩, PlayerPosition.south⟩],
            leadSuit := Suit.hearts }) false false).2.2.1
    { cards := [⟨⟨Suit.hearts, Rank.K⟩, PlayerPosition.south⟩],
      leadSuit := Suit.hearts } rfl (by decide)).1 (by decide)
  exact h.trans (by decide)

/-! ## Scoring: spec-side decomposition and claims C3, C4, C5 -/

/-- Nil adjustment for one bidder as described by the spec: plus or minus
    100 for nil (bid 0), plus or minus 200 for blind nil (bid -1), by
    whether the bidder took zero tricks; 0 for a normal bidder. -/
def nilAdjustment (bid tricks : Int) : Int :=
  if bid = -1 then (if tricks = 0 then 200 else -200)
  else if bid = 0 then (if tricks = 0 then 100 else -100)
  else 0

/-- Team bid per the spec: sum of the bids of the non-nil bidders. -/
def specTeamBid (b1 b2 : Int) : Int :=
  (if b1 = 0 ∨ b1 = -1 then 0 else b1) + (if b2 = 0 ∨ b2 = -1 then 0 else b2)

/-- Tricks counted toward bid evaluation per the spec: tricks of the
    non-nil bidders only. -/
def specNonNilTricks (b1 t1 b2 t2 : Int) : Int :=
  (if b1 = 0 ∨ b1 = -1 then 0 else t1) + (if b2 = 0 ∨ b2 = -1 then 0 else t2)

/-- Bid component of the round score per the spec: made bids earn 10 per
    bid trick plus 1 per overtrick, missed bids lose 10 per bid trick. -/
def specBidPoints (b1 t1 b2 t2 : Int) : Int :=
  if specTeamBid b1 b2 > 0 then
    (if specNonNilTricks b1 t1 b2 t2 ≥ specTeamBid b1 b2 then
      specTeamBid b1 b2 * 10 +
        (specNonNilTricks b1 t1 b2 t2 - specTeamBid b1 b2)
    else -(specTeamBid b1 b2 * 10))
  else 0

/-- Bag count before the penalty check per the spec: previous bags plus
    overtricks of a made bid. -/
def specNewBags (b1 t1 b2 t2 g : Int) : Int :=
  g + (if specTeamBid b1 b2 > 0 ∧
        specNonNilTricks b1 t1 b2 t2 ≥ specTeamBid b1 b2 then
      specNonNilTricks b1 t1 b2 t2 - specTeamBid b1 b2
    else 0)

/-- Modelled from the spec, section 4.3 steps 1-5: nil adjustments per
    bidder, bid evaluation over non-nil bidders, one -100 penalty with a
    reduction of the bag counter by 10 once accumulated bags reach 10. -/
def roundScoreSpec (b1 t1 b2 t2 g : Int) : RoundScoreResult :=
  { points := nilAdjustment b1 t1 + nilAdjustment b2 t2 +
      specBidPoints b1 t1 b2 t2 +
      (if specNewBags b1 t1 b2 t2 g ≥ 10 then -100 else 0)
    bags := if specNewBags b1 t1 b2 t2 g ≥ 10 then
        specNewBags b1 t1 b2 t2 g - 10
      else specNewBags b1 t1 b2 t2 g
    bagPenalty := specNewBags b1 t1 b2 t2 g ≥ 10
    nilBonuses :=
      (if (b1 = 0 ∨ b1 = -1) ∧ t1 = 0 then (if b1 = -1 then 200 else 100) else 0) +
      (if (b2 = 0 ∨ b2 = -1) ∧ t2 = 0 then (if b2 = -1 then 200 else 100) else 0)
    nilPenalties :=
      (if (b1 = 0 ∨ b1 = -1) ∧ ¬ t1 = 0 then (if b1 = -1 then 200 else 100) else 0) +
      (if (b2 = 0 ∨ b2 = -1) ∧ ¬ t2 = 0 then (if b2 = -1 then 200 else 100) else 0) }

lemma nilScore_eq (b t : Int) :
    nilScore (calculatePlayerBidResult b t) = nilAdjustment b t := by
  simp only [nilScore, calculatePlayerBidResult, nilAdjustment,
    Bool.or_eq_true, Bool.and_eq_true, decide_eq_true_eq]
  split_ifs <;> omega

lemma nilBonusOf_eq (b t : Int) :
    nilBonusOf (calculatePlayerBidResult b t) =
      (if (b = 0 ∨ b = -1) ∧ t = 0 then (if b = -1 then 200 else 100) else 0) := by
  simp only [nilBonusOf, calculatePlayerBidResult,
    Bool.or_eq_true, Bool.and_eq_true, decide_eq_true_eq]
  split_ifs <;> omega

lemma nilPenaltyOf_eq (b t : Int) :
    nilPenaltyOf (calculatePlayerBidResult b t) =
      (if (b = 0 ∨ b = -1) ∧ ¬ t = 0 then (if b = -1 then 200 else 100) else 0) := by
  simp only [nilPenaltyOf, calculatePlayerBidResult,
    Bool.or_eq_true, Bool.and_eq_true, Bool.not_eq_eq_eq_not, decide_eq_true_eq]
  split_ifs <;> simp_all <;> omega

lemma isNil_eq (b t : Int) :
    (calculatePlayerBidResult b t).isNil = decide (b = 0 ∨ b = -1) := by
  simp only [calculatePlayerBidResult, decide_eq_decide]
  simp

/-- Decomposition of `calculateRoundScore` into the spec's formulas;
    shared by the scoring claims. -/
lemma calculateRoundScore_eq_spec (b1 t1 b2 t2 g : Int) :
    calculateRoundScore b1 t1 b2 t2 g = roundScoreSpec b1 t1 b2 t2 g := by
  simp only [calculateRoundScore, nilScore_eq, nilBonusOf_eq, nilPenaltyOf_eq,
    isNil_eq, roundScoreSpec, decide_eq_true_eq, RoundScoreResult.mk.injEq,
    BidResult.bid, BidResult.tricks]
  refine ⟨?_, ?_, ?_, trivial, trivial⟩ <;>
    simp only [specBidPoints, specNewBags, specTeamBid, specNonNilTricks,
      calculatePlayerBidResult, decide_eq_decide] <;>
    split_ifs <;> omega

/-- C4.  `calculateRoundScore` equals the spec decomposition: team bid and
    evaluated tricks come from non-nil bidders only; a made positive team
    bid earns 10 per bid trick plus 1 per overtrick with overtricks added
    to bags, a missed one loses 10 per bid trick with bags unchanged; and
    once bags reach 10, a single -100 penalty is applied and the bag
    counter drops by exactly 10.  In particular starting bags 8 with a
    made bid of 8 and 3 overtricks ends at 1 bag with the penalty flag. -/
theorem calculateRoundScore_spec (b1 t1 b2 t2 g : Int) :
    calculateRoundScore b1 t1 b2 t2 g = roundScoreSpec b1 t1 b2 t2 g ∧
    (calculateRoundScore 5 8 3 3 8).bags = 1 ∧
    (calculateRoundScore 5 8 3 3 8).bagPenalty = true ∧
    (calculateRoundScore 5 8 3 3 8).points = 80 + 3 - 100 :=
  ⟨calculateRoundScore_eq_spec b1 t1 b2 t2 g, by decide, by decide, by decide⟩

/-- C5.  Each nil or blind-nil bidder contributes exactly the nil
    adjustment (+100 or -100 for nil, +200 or -200 for blind nil, by
    whether they took zero tricks), and the rest of the round score does
    not depend on that bidder's trick count. -/
theorem calculateRoundScore_nil_independent (b1 t1 t1' b2 t2 t2' g : Int) :
    ((b1 = 0 ∨ b1 = -1) →
      (nilAdjustment b1 t1 =
        (if t1 = 0 then (if b1 = -1 then 200 else 100)
         else (if b1 = -1 then -200 else -100))) ∧
      (calculateRoundScore b1 t1 b2 t2 g).points - nilAdjustment b1 t1 =
        (calculateRoundScore b1 t1' b2 t2 g).points - nilAdjustment b1 t1') ∧
    ((b2 = 0 ∨ b2 = -1) →
      (calculateRoundScore b1 t1 b2 t2 g).points - nilAdjustment b2 t2 =
        (calculateRoundScore b1 t1 b2 t2' g).points - nilAdjustment b2 t2') := by
  constructor
  · intro hn
    constructor
    · rcases hn with rfl | rfl <;> simp [nilAdjustment]
    · rw [calculateRoundScore_eq_spec, calculateRoundScore_eq_spec]
      have h1 : specNonNilTricks b1 t1 b2 t2 = specNonNilTricks b1 t1' b2 t2 := by
        simp [specNonNilTricks, if_pos hn]
      have hb : specBidPoints b1 t1 b2 t2 = specBidPoints b1 t1' b2 t2 := by
        simp only [specBidPoints, h1]
      have hg : specNewBags b1 t1 b2 t2 g = specNewBags b1 t1' b2 t2 g := by
        simp only [specNewBags, h1]
      simp only [roundScoreSpec, hb, hg]
      ring
  · intro hn
    rw [calculateRoundScore_eq_spec, calculateRoundScore_eq_spec]
    have h1 : specNonNilTricks b1 t1 b2 t2 = specNonNilTricks b1 t1 b2 t2' := by
      simp [specNonNilTricks, if_pos hn]
    have hb : specBidPoints b1 t1 b2 t2 = specBidPoints b1 t1 b2 t2' := by
      simp only [specBidPoints, h1]
    have hg : specNewBags b1 t1 b2 t2 g = specNewBags b1 t1 b2 t2' g := by
      simp only [specNewBags, h1]
    simp only [roundScoreSpec, hb, hg]
    ring

/-- Witness for C5: a failed nil (bid 0, 2 tricks) contributes exactly
    -100 relative to the same round where the nil succeeds. -/
theorem calculateRoundScore_nil_independent_witness :
    (calculateRoundScore 0 2 4 5 0).points - nilAdjustment 0 2 =
      (calculateRoundScore 0 0 4 5 0).points - nilAdjustment 0 0 :=
  ((calculateRoundScore_nil_independent 0 2 0 4 5 5 0).1 (Or.inl rfl)).2

/-- Counterexample to C3: with starting bags 9 (in range 0..9), legal
    bids 1 and nil, and 13 tricks (a legal round outcome), the returned
    bag counter is 11, outside 0..9, and differs from the mod-10 value. -/
theorem calculateRoundScore_bags_counterexample :
    (calculateRoundScore 1 13 0 0 9).bags = 11 ∧
    ¬ ((calculateRoundScore 1 13 0 0 9).bags ≤ 9) ∧
    (calculateRoundScore 1 13 0 0 9).bags ≠ (9 + (13 - 1)) % 10 := by
  decide

/-- C3 amended.  Under a starting bag count in 0..9 and a legal round
    outcome, the returned bag count is nonnegative and at most 11 (the
    counter subtracts 10 exactly once when reaching 10, rather than
    reducing modulo 10), and it is within 0..9 whenever the starting bags
    plus the team's total tricks stay at most 19. -/
theorem calculateRoundScore_bags_range (b1 t1 b2 t2 g : Int)
    (hg0 : 0 ≤ g) (hg9 : g ≤ 9)
    (hb1 : -1 ≤ b1) (hb1' : b1 ≤ 13) (hb2 : -1 ≤ b2) (hb2' : b2 ≤ 13)
    (ht1 : 0 ≤ t1) (ht2 : 0 ≤ t2) (htt : t1 + t2 ≤ 13) :
    0 ≤ (calculateRoundScore b1 t1 b2 t2 g).bags ∧
    (calculateRoundScore b1 t1 b2 t2 g).bags ≤ 11 ∧
    (g + t1 + t2 ≤ 19 → (calculateRoundScore b1 t1 b2 t2 g).bags ≤ 9) := by
  rw [calculateRoundScore_eq_spec]
  simp only [roundScoreSpec, specNewBags, specNonNilTricks, specTeamBid]
  split_ifs <;> refine ⟨by omega, by omega, fun h => by omega⟩

/-- Witness for the amended C3 at a concrete legal round. -/
theorem calculateRoundScore_bags_range_witness :
    0 ≤ (calculateRoundScore 4 5 3 4 2).bags ∧
    (calculateRoundScore 4 5 3 4 2).bags ≤ 11 ∧
    ((2:Int) + 5 + 4 ≤ 19 → (calculateRoundScore 4 5 3 4 2).bags ≤ 9) :=
  calculateRoundScore_bags_range 4 5 3 4 2 (by decide) (by decide) (by decide)
    (by decide) (by decide) (by decide) (by decide) (by decide) (by decide)

/-! ## C7: medium AI bid -/

lemma nodup_length_le_finset_card {α : Type} [DecidableEq α] {l : List α}
    (hl : l.Nodup) (s : Finset α) (hsub : ∀ x ∈ l, x ∈ s) :
    l.length ≤ s.card := by
  rw [← List.toFinset_card_of_nodup hl]
  exact Finset.card_le_card fun x hx => hsub x (List.mem_toFinset.mp hx)

/-- A duplicate-free list of cards all sharing one rank has at most 4
    elements (one per suit). -/
lemma filter_fixed_rank_length_le (hand : List Card) (hnd : hand.Nodup)
    (r : Rank) (p : Card → Bool) (hp : ∀ c, p c = true → c.rank = r) :
    (hand.filter p).length ≤ 4 := by
  have h1 : (hand.filter p).Nodup := hnd.filter p
  have h2 : ((hand.filter p).map Card.suit).Nodup := by
    refine List.Nodup.map_on ?_ h1
    intro x hx y hy hxy
    have hxr := hp x (List.of_mem_filter hx)
    have hyr := hp y (List.of_mem_filter hy)
    cases x
    cases y
    simp_all
  have h3 : ∀ s ∈ (hand.filter p).map Card.suit,
      s ∈ ({Suit.spades, Suit.hearts, Suit.diamonds, Suit.clubs} : Finset Suit) := by
    intro s _
    cases s <;> decide
  have h4 := nodup_length_le_finset_card h2 _ h3
  simpa using h4

/-- A duplicate-free list of cards all of one suit with ranks from a
    3-element set has at most 3 elements. -/
lemma filter_high_spades_length_le (hand : List Card) (hnd : hand.Nodup) :
    (hand.filter fun c => c.suit = spades ∧ RANK_VALUES c.rank ≥ 12).length ≤ 3 := by
  set p : Card → Bool := fun c => c.suit = spades ∧ RANK_VALUES c.rank ≥ 12 with hpdef
  have h1 : (hand.filter p).Nodup := hnd.filter p
  have h2 : ((hand.filter p).map Card.rank).Nodup := by
    refine List.Nodup.map_on ?_ h1
    intro x hx y hy hxy
    have hxr := List.of_mem_filter hx
    have hyr := List.of_mem_filter hy
    rw [hpdef] at hxr hyr
    simp only [decide_eq_true_eq, Bool.and_eq_true] at hxr hyr
    cases x
    cases y
    simp_all
  have h3 : ∀ r ∈ (hand.filter p).map Card.rank,
      r ∈ ({Rank.Q, Rank.K, Rank.A} : Finset Rank) := by
    intro r hr
    obtain ⟨c, hc, rfl⟩ := List.mem_map.mp hr
    have hcp := List.of_mem_filter hc
    rw [hpdef] at hcp
    simp only [decide_eq_true_eq, Bool.and_eq_true] at hcp
    have := hcp.2
    rcases hq : c.rank <;> rw [hq] at this <;> simp [RANK_VALUES] at this <;> decide
  have h4 := nodup_length_le_finset_card h2 _ h3
  simpa using h4

lemma length_filter_le_of_imp {α : Type} (l : List α) (p q : α → Bool)
    (h : ∀ a, p a = true → q a = true) :
    (l.filter p).length ≤ (l.filter q).length := by
  induction l with
  | nil => simp
  | cons a t ih =>
    rw [List.filter_cons, List.filter_cons]
    by_cases hpa : p a = true
    · rw [if_pos hpa, if_pos (h a hpa)]
      simpa using ih
    · rw [if_neg hpa]
      split_ifs
      · exact le_trans ih (by simp)
      · exact ih

lemma length_filter_add_length_filter_le {α : Type} (l : List α) (p q : α → Bool)
    (h : ∀ a, ¬(p a = true ∧ q a = true)) :
    (l.filter p).length + (l.filter q).length ≤ l.length := by
  induction l with
  | nil => simp
  | cons a t ih =>
    rw [List.filter_cons, List.filter_cons]
    by_cases hpa : p a = true <;> by_cases hqa : q a = true
    · exact absurd ⟨hpa, hqa⟩ (h a)
    · rw [if_pos hpa, if_neg hqa]
      simp only [List.length_cons]
      omega
    · rw [if_neg hpa, if_pos hqa]
      simp only [List.length_cons]
      omega
    · rw [if_neg hpa, if_neg hqa]
      simp only [List.length_cons]
      omega

/-! ### Properties of the binary64 rounding model -/

lemma pow2_zpow (e : Int) : pow2 e = (2:ℚ)^e := by
  by_cases he : 0 ≤ e
  · rw [pow2, if_pos he]
    obtain ⟨n, rfl⟩ := Int.eq_ofNat_of_zero_le he
    rw [Int.toNat_natCast, zpow_natCast]
    push_cast
    rfl
  · rw [pow2, if_neg he]
    push_neg at he
    have hk : e = -(((-e).toNat : ℕ) : Int) := by omega
    rw [hk]
    simp only [neg_neg, Int.toNat_natCast]
    rw [zpow_neg, zpow_natCast, one_div]
    push_cast
    rfl

lemma pow2_pos (e : Int) : 0 < pow2 e := by
  rw [pow2_zpow]
  positivity

lemma pow2_le_pow2 {a b : Int} (h : a ≤ b) : pow2 a ≤ pow2 b := by
  rw [pow2_zpow, pow2_zpow]
  exact zpow_le_zpow_right₀ one_le_two h

lemma pow2_add (a b : Int) : pow2 (a + b) = pow2 a * pow2 b := by
  rw [pow2_zpow, pow2_zpow, pow2_zpow]
  exact zpow_add₀ two_ne_zero a b

lemma expCandidates_eq :
    expCandidates = [-8, -7, -6, -5, -4, -3, -2, -1, 0, 1, 2, 3, 4, 5, 6, 7, 8] := by
  decide

lemma rne_ge (m : ℚ) : m - 1/2 ≤ (rne m : ℚ) := by
  have h1 := Int.floor_le m
  have h2 := Int.lt_floor_add_one m
  rw [rne]
  split_ifs <;> push_cast <;> linarith

lemma rne_le (m : ℚ) : (rne m : ℚ) ≤ m + 1/2 := by
  have h1 := Int.floor_le m
  have h2 := Int.lt_floor_add_one m
  rw [rne]
  split_ifs <;> push_cast <;> linarith

lemma rne_nonneg {m : ℚ} (h : 0 ≤ m) : 0 ≤ rne m := by
  have h1 : 0 ≤ ⌊m⌋ := Int.floor_nonneg.mpr h
  rw [rne]
  split_ifs <;> omega

lemma roundToDouble_zero : roundToDouble 0 = 0 := by
  rw [roundToDouble, if_pos rfl]

lemma roundToDouble_nonneg {q : ℚ} (h : 0 ≤ q) : 0 ≤ roundToDouble q := by
  rcases eq_or_lt_of_le h with h0 | h0
  · rw [← h0, roundToDouble_zero]
  · rw [roundToDouble, if_neg (by linarith), if_neg (by linarith)]
    have h1 : 0 ≤ rne (q * pow2 (52 - expOf q)) :=
      rne_nonneg (mul_nonneg (le_of_lt h0) (le_of_lt (pow2_pos _)))
    exact mul_nonneg (by exact_mod_cast h1) (le_of_lt (pow2_pos _))

/-- On `[1/256, 256)` the probed binade exponent is correct. -/
lemma expOf_spec {x : ℚ} (h1 : 1/256 ≤ x) (h2 : x < 256) :
    (-8 ≤ expOf x ∧ expOf x ≤ 8) ∧
      pow2 (expOf x) ≤ x ∧ x < pow2 (expOf x + 1) := by
  have hx : 0 < x := lt_of_lt_of_le (by norm_num) h1
  set e := Int.log 2 x with hedef
  have hlow : (2:ℚ)^e ≤ x := by
    have := Int.zpow_log_le_self (b := 2) (R := ℚ) (by norm_num) hx
    simpa using this
  have hhigh : x < (2:ℚ)^(e+1) := by
    have := Int.lt_zpow_succ_log_self (b := 2) (R := ℚ) (by norm_num) x
    simpa using this
  have hge : -8 ≤ e := by
    have h256 : ((2:ℕ):ℚ)^(-8 : Int) ≤ x := by
      push_cast
      rw [zpow_neg]
      norm_num
      linarith
    exact (Int.zpow_le_iff_le_log (by norm_num) hx).mp h256
  have hle : e ≤ 8 := by
    by_contra hcon
    push_neg at hcon
    have h9 : (9 : Int) ≤ e := by omega
    have hmono : (2:ℚ)^(9:Int) ≤ (2:ℚ)^e := zpow_le_zpow_right₀ one_le_two h9
    have h512 : (512 : ℚ) ≤ x := by
      have hval : ((512:ℚ)) = (2:ℚ)^(9:Int) := by norm_num
      rw [hval]
      exact le_trans hmono hlow
    linarith
  have hmem : e ∈ expCandidates := by
    rw [expCandidates_eq]
    simp only [List.mem_cons, List.not_mem_nil, or_false]
    omega
  have hsat : (fun f => decide (pow2 f ≤ x ∧ x < pow2 (f+1))) e = true := by
    simp only [decide_eq_true_eq]
    rw [pow2_zpow, pow2_zpow]
    exact ⟨hlow, hhigh⟩
  have hsome : (expCandidates.find? fun f => decide (pow2 f ≤ x ∧ x < pow2 (f+1))).isSome := by
    rw [List.find?_isSome]
    exact ⟨e, hmem, hsat⟩
  obtain ⟨f, hf⟩ := Option.isSome_iff_exists.mp hsome
  have hfsat := List.find?_some hf
  have hfmem := List.mem_of_find?_eq_some hf
  have hfval : expOf x = f := by
    rw [expOf, hf]
    rfl
  simp only [decide_eq_true_eq] at hfsat
  have hfbounds : -8 ≤ f ∧ f ≤ 8 := by
    rw [expCandidates_eq] at hfmem
    simp only [List.mem_cons, List.not_mem_nil, or_false] at hfmem
    omega
  rw [hfval]
  exact ⟨hfbounds, hfsat⟩

/-- The binade exponent is unique, hence determined by one valid bracket. -/
lemma expOf_eq {x : ℚ} {e : Int} (he1 : -8 ≤ e) (he2 : e ≤ 7)
    (h1 : pow2 e ≤ x) (h2 : x < pow2 (e+1)) : expOf x = e := by
  have h256l : pow2 (-8) = 1/256 := by
    rw [pow2_zpow, zpow_neg]
    norm_num
  have h256u : pow2 8 = 256 := by
    rw [pow2_zpow]
    norm_num
  have hx1 : 1/256 ≤ x := by
    have := pow2_le_pow2 he1
    linarith
  have hx2 : x < 256 := by
    have := pow2_le_pow2 (show e + 1 ≤ 8 by omega)
    linarith
  obtain ⟨⟨hb1, hb2⟩, hlo, hhi⟩ := expOf_spec hx1 hx2
  rcases lt_trichotomy (expOf x) e with hlt | heq | hgt
  · exfalso
    have := pow2_le_pow2 (show expOf x + 1 ≤ e by omega)
    linarith
  · exact heq
  · exfalso
    have := pow2_le_pow2 (show e + 1 ≤ expOf x by omega)
    linarith

/-- Below the probed range the search fails and the exponent defaults
    to 0, which scales such values by `2^52` and still rounds them with
    error at most `2^(-53)`. -/
lemma expOf_small {x : ℚ} (h0 : 0 < x) (h1 : x < 1/256) : expOf x = 0 := by
  have hnone :
      (expCandidates.find? fun f => decide (pow2 f ≤ x ∧ x < pow2 (f+1))) = none := by
    rw [List.find?_eq_none]
    intro f hfmem
    simp only [decide_eq_true_eq]
    intro hcon
    have hfb : -8 ≤ f := by
      rw [expCandidates_eq] at hfmem
      simp only [List.mem_cons, List.not_mem_nil, or_false] at hfmem
      omega
    have hlow := pow2_le_pow2 hfb
    have h8 : pow2 (-8) = 1/256 := by
      rw [pow2_zpow, zpow_neg]
      norm_num
    have := hcon.1
    linarith
  rw [expOf, hnone]
  rfl

lemma rne_scale_close {q : ℚ} (e : Int) (hee : e ≤ 8) :
    q - pow2 (-45) ≤ (rne (q * pow2 (52 - e)) : ℚ) * pow2 (e - 52) ∧
    (rne (q * pow2 (52 - e)) : ℚ) * pow2 (e - 52) ≤ q + pow2 (-45) := by
  have hp := pow2_pos (e - 52)
  have hm1 := rne_ge (q * pow2 (52 - e))
  have hm2 := rne_le (q * pow2 (52 - e))
  have hinv : pow2 (52 - e) * pow2 (e - 52) = 1 := by
    rw [← pow2_add, show (52 - e) + (e - 52) = 0 from by omega, pow2_zpow]
    norm_num
  have hhalf : (1/2 : ℚ) * pow2 (e - 52) ≤ pow2 (-45) := by
    have hmono : pow2 (e - 52) ≤ pow2 (-44) := pow2_le_pow2 (by omega)
    have h2 : pow2 (-44) = 2 * pow2 (-45) := by
      rw [show (-44:Int) = 1 + -45 from by omega, pow2_add, pow2_zpow]
      norm_num
    linarith
  constructor
  · calc q - pow2 (-45) ≤ q - 1/2 * pow2 (e - 52) := by linarith
      _ = (q * pow2 (52 - e) - 1/2) * pow2 (e - 52) := by
          rw [sub_mul, mul_assoc, hinv, mul_one]
      _ ≤ _ := mul_le_mul_of_nonneg_right hm1 (le_of_lt hp)
  · calc (rne (q * pow2 (52 - e)) : ℚ) * pow2 (e - 52)
        ≤ (q * pow2 (52 - e) + 1/2) * pow2 (e - 52) :=
          mul_le_mul_of_nonneg_right hm2 (le_of_lt hp)
      _ = q + 1/2 * pow2 (e - 52) := by rw [add_mul, mul_assoc, hinv, mul_one]
      _ ≤ q + pow2 (-45) := by linarith

/-- Rounding a nonnegative rational below 256 moves it by less than
    `2^(-45)`. -/
lemma roundToDouble_close {q : ℚ} (h0 : 0 ≤ q) (h2 : q < 256) :
    q - pow2 (-45) ≤ roundToDouble q ∧ roundToDouble q ≤ q + pow2 (-45) := by
  have heps : (0:ℚ) < pow2 (-45) := pow2_pos _
  rcases eq_or_lt_of_le h0 with h0e | h0l
  · rw [← h0e, roundToDouble_zero]
    constructor <;> linarith
  rcases lt_or_le q (1/256) with hsmall | hbig
  · have he := expOf_small h0l hsmall
    rw [roundToDouble, if_neg (by linarith), if_neg (by linarith), he]
    exact rne_scale_close 0 (by norm_num)
  · obtain ⟨⟨hb1, hb2⟩, hlo, hhi⟩ := expOf_spec hbig h2
    rw [roundToDouble, if_neg (by linarith), if_neg (by linarith)]
    exact rne_scale_close (expOf q) hb2

lemma pow2_neg45_eq : pow2 (-45) = 1/35184372088832 := by
  rw [pow2_zpow, zpow_neg]
  norm_num

/-! ### Concrete binary64 values of the estimator constants -/

lemma expOf_07 : expOf (7/10) = -1 := by with_unfolding_all decide

lemma expOf_03 : expOf (3/10) = -2 := by with_unfolding_all decide

lemma pow2_51_eq : pow2 51 = 2251799813685248 := by
  rw [pow2_zpow]
  norm_num

lemma pow2_neg51_eq : pow2 (-51) = 1/2251799813685248 := by
  rw [pow2_zpow, zpow_neg]
  norm_num

lemma pow2_53_eq : pow2 53 = 9007199254740992 := by
  rw [pow2_zpow]
  norm_num

lemma pow2_neg53_eq : pow2 (-53) = 1/9007199254740992 := by
  rw [pow2_zpow, zpow_neg]
  norm_num

lemma pow2_54_eq : pow2 54 = 18014398509481984 := by
  rw [pow2_zpow]
  norm_num

lemma pow2_neg54_eq : pow2 (-54) = 1/18014398509481984 := by
  rw [pow2_zpow, zpow_neg]
  norm_num

lemma pow2_1_eq : pow2 1 = 2 := by
  rw [pow2_zpow]
  norm_num

lemma pow2_2_eq : pow2 2 = 4 := by
  rw [pow2_zpow]
  norm_num

lemma pow2_neg1_eq : pow2 (-1) = 1/2 := by
  rw [pow2_zpow, zpow_neg]
  norm_num

lemma pow2_0_eq : pow2 0 = 1 := by
  rw [pow2_zpow]
  norm_num

/-- The binary64 value of `0.7` is `6305039478318694 * 2^(-53)`. -/
lemma D07_eq : D07 = 3152519739159347 / 4503599627370496 := by
  rw [D07, roundToDouble, if_neg (by norm_num), if_neg (by norm_num), expOf_07]
  rw [show (52 - (-1) : Int) = 53 from by norm_num,
    show ((-1) - 52 : Int) = -53 from by norm_num, pow2_53_eq, pow2_neg53_eq]
  have hm : (7:ℚ)/10 * 9007199254740992 = 63050394783186944/10 := by norm_num
  rw [hm]
  have hr : rne (63050394783186944/10) = 6305039478318694 := by
    rw [rne]
    norm_num
  rw [hr]
  norm_num

/-- The binary64 value of `0.3` is `5404319552844595 * 2^(-54)`. -/
lemma D03_eq : D03 = 5404319552844595 / 18014398509481984 := by
  rw [D03, roundToDouble, if_neg (by norm_num), if_neg (by norm_num), expOf_03]
  rw [show (52 - (-2) : Int) = 54 from by norm_num,
    show ((-2) - 52 : Int) = -54 from by norm_num, pow2_54_eq, pow2_neg54_eq]
  have hm : (3:ℚ)/10 * 18014398509481984 = 27021597764222976/5 := by norm_num
  rw [hm]
  have hr : rne (27021597764222976/5) = 5404319552844595 := by
    rw [rne]
    norm_num
  rw [hr]
  norm_num

/-- The literal `0.5` is exactly representable. -/
lemma D05_eq : D05 = 1/2 := by
  rw [D05, roundToDouble, if_neg (by norm_num), if_neg (by norm_num)]
  have he : expOf (5/10) = -1 := by with_unfolding_all decide
  rw [he]
  rw [show (52 - (-1) : Int) = 53 from by norm_num,
    show ((-1) - 52 : Int) = -53 from by norm_num, pow2_53_eq, pow2_neg53_eq]
  have hm : (5:ℚ)/10 * 9007199254740992 = 4503599627370496 := by norm_num
  rw [hm]
  have hr : rne (4503599627370496 : ℚ) = 4503599627370496 := by
    rw [rne]
    norm_num
  rw [hr]
  norm_num

/-- `3 * 0.7` rounds down to `2.0999999999999996` (a tie broken to the
    even mantissa). -/
lemma dmul_3_D07 : dmul 3 D07 = 1182194902184755 / 562949953421312 := by
  rw [dmul, D07_eq]
  have harg : (3:ℚ) * (3152519739159347 / 4503599627370496)
      = 9457559217478041/4503599627370496 := by norm_num
  rw [harg]
  have he : expOf (9457559217478041/4503599627370496 : ℚ) = 1 := by
    refine expOf_eq (by norm_num) (by norm_num) ?_ ?_
    · rw [pow2_1_eq]
      norm_num
    · rw [show (1 + 1 : Int) = 2 from by norm_num, pow2_2_eq]
      norm_num
  rw [roundToDouble, if_neg (by norm_num), if_neg (by norm_num), he]
  rw [show (52 - 1 : Int) = 51 from by norm_num,
    show (1 - 52 : Int) = -51 from by norm_num, pow2_51_eq, pow2_neg51_eq]
  have hm : (9457559217478041/4503599627370496 : ℚ) * 2251799813685248
      = 9457559217478041/2 := by norm_num
  rw [hm]
  have hr : rne (9457559217478041/2) = 4728779608739020 := by
    rw [rne]
    norm_num
  rw [hr]
  norm_num

/-- Adding 1 to `2.0999999999999996` is exact. -/
lemma dadd_1_3D07 : dadd 1 (1182194902184755 / 562949953421312)
    = 1745144855606067 / 562949953421312 := by
  rw [dadd]
  have harg : (1:ℚ) + 1182194902184755 / 562949953421312
      = 1745144855606067/562949953421312 := by norm_num
  rw [harg]
  have he : expOf (1745144855606067/562949953421312 : ℚ) = 1 := by
    refine expOf_eq (by norm_num) (by norm_num) ?_ ?_
    · rw [pow2_1_eq]
      norm_num
    · rw [show (1 + 1 : Int) = 2 from by norm_num, pow2_2_eq]
      norm_num
  rw [roundToDouble, if_neg (by norm_num), if_neg (by norm_num), he]
  rw [show (52 - 1 : Int) = 51 from by norm_num,
    show (1 - 52 : Int) = -51 from by norm_num, pow2_51_eq, pow2_neg51_eq]
  have hm : (1745144855606067/562949953421312 : ℚ) * 2251799813685248
      = 6980579422424268 := by norm_num
  rw [hm]
  have hr : rne (6980579422424268 : ℚ) = 6980579422424268 := by
    rw [rne]
    norm_num
  rw [hr]
  norm_num

/-- `3 * 0.3` rounds down to `0.8999999999999999` (a tie broken to the
    even mantissa). -/
lemma dmul_3_D03 : dmul 3 D03 = 2026619832316723 / 2251799813685248 := by
  rw [dmul, D03_eq]
  have harg : (3:ℚ) * (5404319552844595 / 18014398509481984)
      = 16212958658533785/18014398509481984 := by norm_num
  rw [harg]
  have he : expOf (16212958658533785/18014398509481984 : ℚ) = -1 := by
    refine expOf_eq (by norm_num) (by norm_num) ?_ ?_
    · rw [pow2_neg1_eq]
      norm_num
    · rw [show ((-1) + 1 : Int) = 0 from by norm_num, pow2_0_eq]
      norm_num
  rw [roundToDouble, if_neg (by norm_num), if_neg (by norm_num), he]
  rw [show (52 - (-1) : Int) = 53 from by norm_num,
    show ((-1) - 52 : Int) = -53 from by norm_num, pow2_53_eq, pow2_neg53_eq]
  have hm : (16212958658533785/18014398509481984 : ℚ) * 9007199254740992
      = 16212958658533785/2 := by norm_num
  rw [hm]
  have hr : rne (16212958658533785/2) = 8106479329266892 := by
    rw [rne]
    norm_num
  rw [hr]
  norm_num

/-- The final addition is exact and gives `3.9999999999999996`, that is
    `(2^53 - 1) * 2^(-51)`. -/
lemma dadd_final : dadd (1745144855606067 / 562949953421312)
    (2026619832316723 / 2251799813685248) = 9007199254740991 / 2251799813685248 := by
  rw [dadd]
  have harg : (1745144855606067 / 562949953421312 : ℚ) + 2026619832316723 / 2251799813685248
      = 9007199254740991/2251799813685248 := by norm_num
  rw [harg]
  have he : expOf (9007199254740991/2251799813685248 : ℚ) = 1 := by
    refine expOf_eq (by norm_num) (by norm_num) ?_ ?_
    · rw [pow2_1_eq]
      norm_num
    · rw [show (1 + 1 : Int) = 2 from by norm_num, pow2_2_eq]
      norm_num
  rw [roundToDouble, if_neg (by norm_num), if_neg (by norm_num), he]
  rw [show (52 - 1 : Int) = 51 from by norm_num,
    show (1 - 52 : Int) = -51 from by norm_num, pow2_51_eq, pow2_neg51_eq]
  have hm : (9007199254740991/2251799813685248 : ℚ) * 2251799813685248
      = 9007199254740991 := by norm_num
  rw [hm]
  have hr : rne (9007199254740991 : ℚ) = 9007199254740991 := by
    rw [rne]
    norm_num
  rw [hr]
  norm_num

/-- The integer 3 is exactly representable. -/
lemma roundToDouble_3 : roundToDouble 3 = 3 := by
  have he : expOf 3 = 1 := by
    refine expOf_eq (by norm_num) (by norm_num) ?_ ?_
    · rw [pow2_1_eq]
      norm_num
    · rw [show (1 + 1 : Int) = 2 from by norm_num, pow2_2_eq]
      norm_num
  rw [roundToDouble, if_neg (by norm_num), if_neg (by norm_num), he]
  rw [show (52 - 1 : Int) = 51 from by norm_num,
    show (1 - 52 : Int) = -51 from by norm_num, pow2_51_eq, pow2_neg51_eq]
  have hm : (3:ℚ) * 2251799813685248 = 6755399441055744 := by norm_num
  rw [hm]
  have hr : rne (6755399441055744 : ℚ) = 6755399441055744 := by
    rw [rne]
    norm_num
  rw [hr]
  norm_num

/-- `floor(3.9999999999999996) = 3`. -/
lemma floor_final : ⌊(9007199254740991 : ℚ) / 2251799813685248⌋ = 3 := by
  norm_num

/-- The estimate floor is never negative: every summand is nonnegative. -/
lemma estimateMinTricks_nonneg (hand : List Card) :
    0 ≤ estimateMinTricks hand := by
  have hD07l : (0:ℚ) ≤ D07 := by rw [D07_eq]; norm_num
  have hD03l : (0:ℚ) ≤ D03 := by rw [D03_eq]; norm_num
  simp only [estimateMinTricks, dadd, dmul]
  refine Int.floor_nonneg.mpr (roundToDouble_nonneg (add_nonneg
    (roundToDouble_nonneg (add_nonneg (by positivity)
      (roundToDouble_nonneg (by positivity))))
    (roundToDouble_nonneg (by positivity))))

/-- Estimate bound for duplicate-free hands: at most 4 aces, 4 protected
    kings and 3 high spades give a floored binary64 sum of at most 7 (the
    exact sum is below 7.8 and every rounding moves it by less than
    `2^(-45)`). -/
lemma estimateMinTricks_le (hand : List Card) (hnd : hand.Nodup) :
    estimateMinTricks hand ≤ 7 := by
  have ha : (hand.filter fun c => c.rank = A).length ≤ 4 :=
    filter_fixed_rank_length_le hand hnd A _ fun c hc => by simpa using hc
  have hk : (hand.filter fun c => c.rank = K ∧ countSuits hand c.suit ≥ 2).length ≤ 4 :=
    filter_fixed_rank_length_le hand hnd K _ fun c hc => by
      simp only [decide_eq_true_eq, Bool.and_eq_true] at hc
      exact hc.1
  have hh := filter_high_spades_length_le hand hnd
  simp only [estimateMinTricks]
  set a := (hand.filter fun c => c.rank = A).length with hadef
  set k := (hand.filter fun c => c.rank = K ∧ countSuits hand c.suit ≥ 2).length with hkdef
  set hs := (hand.filter fun c => c.suit = spades ∧ RANK_VALUES c.rank ≥ 12).length with hsdef
  have hD07u : D07 ≤ 71/100 := by rw [D07_eq]; norm_num
  have hD07l : (0:ℚ) ≤ D07 := by rw [D07_eq]; norm_num
  have hD03u : D03 ≤ 31/100 := by rw [D03_eq]; norm_num
  have hD03l : (0:ℚ) ≤ D03 := by rw [D03_eq]; norm_num
  have heps : pow2 (-45) = 1/35184372088832 := pow2_neg45_eq
  have hac : (a:ℚ) ≤ 4 := by exact_mod_cast ha
  have hkc : (k:ℚ) ≤ 4 := by exact_mod_cast hk
  have hhc : (hs:ℚ) ≤ 3 := by exact_mod_cast hh
  have hal : (0:ℚ) ≤ (a:ℚ) := by positivity
  simp only [dadd, dmul]
  have hkd : (k:ℚ) * D07 ≤ 4 * (71/100) := by
    apply mul_le_mul hkc hD07u hD07l (by norm_num)
  have hhd : (hs:ℚ) * D03 ≤ 3 * (31/100) := by
    apply mul_le_mul hhc hD03u hD03l (by norm_num)
  have hv7 := roundToDouble_close (q := (k:ℚ) * D07) (by positivity) (by linarith)
  have hv7l : 0 ≤ roundToDouble ((k:ℚ) * D07) := roundToDouble_nonneg (by positivity)
  have ht2arg : (0:ℚ) ≤ (a:ℚ) + roundToDouble ((k:ℚ) * D07) := by linarith
  have ht2 := roundToDouble_close (q := (a:ℚ) + roundToDouble ((k:ℚ) * D07))
    ht2arg (by linarith [hv7.2, heps])
  have ht2l : 0 ≤ roundToDouble ((a:ℚ) + roundToDouble ((k:ℚ) * D07)) :=
    roundToDouble_nonneg ht2arg
  have hv3 := roundToDouble_close (q := (hs:ℚ) * D03) (by positivity) (by linarith)
  have hv3l : 0 ≤ roundToDouble ((hs:ℚ) * D03) := roundToDouble_nonneg (by positivity)
  have ht3arg : (0:ℚ) ≤ roundToDouble ((a:ℚ) + roundToDouble ((k:ℚ) * D07))
      + roundToDouble ((hs:ℚ) * D03) := by linarith
  have ht3 := roundToDouble_close
    (q := roundToDouble ((a:ℚ) + roundToDouble ((k:ℚ) * D07)) + roundToDouble ((hs:ℚ) * D03))
    ht3arg (by linarith [hv7.2, ht2.2, hv3.2, heps])
  have hlt : roundToDouble (roundToDouble ((a:ℚ) + roundToDouble ((k:ℚ) * D07))
      + roundToDouble ((hs:ℚ) * D03)) < ((8:Int):ℚ) := by
    push_cast
    linarith [hv7.2, ht2.2, hv3.2, ht3.2, heps]
  have := Int.floor_lt.mpr hlt
  omega

/-- Bound for the void/singleton tail of the adjusted estimate: with the
    integer part at most 9 and at most 4 short suits, the rounded result
    stays below 11.5, so its `Math.round` is at most 11. -/
lemma round_dadd_tail_le (b2 : ℚ) (v sg : ℕ) (hb0 : 0 ≤ b2) (hb9 : b2 ≤ 9)
    (hvs : v + sg ≤ 4) :
    round (dadd b2 (dadd (dmul (v:ℚ) D05) (dmul (sg:ℚ) D03))) ≤ 11 := by
  have hD05u : D05 ≤ 51/100 := by rw [D05_eq]; norm_num
  have hD05l : (0:ℚ) ≤ D05 := by rw [D05_eq]; norm_num
  have hD03u : D03 ≤ 31/100 := by rw [D03_eq]; norm_num
  have hD03l : (0:ℚ) ≤ D03 := by rw [D03_eq]; norm_num
  have heps : pow2 (-45) = 1/35184372088832 := pow2_neg45_eq
  have hvc : (v:ℚ) + (sg:ℚ) ≤ 4 := by exact_mod_cast hvs
  have hvl : (0:ℚ) ≤ (v:ℚ) := by positivity
  have hsgl : (0:ℚ) ≤ (sg:ℚ) := by positivity
  simp only [dadd, dmul]
  have ha1 : (v:ℚ) * D05 ≤ (v:ℚ) * (51/100) :=
    mul_le_mul_of_nonneg_left hD05u hvl
  have ha2 : (sg:ℚ) * D03 ≤ (sg:ℚ) * (31/100) :=
    mul_le_mul_of_nonneg_left hD03u hsgl
  have hm1 := roundToDouble_close (q := (v:ℚ) * D05) (by positivity) (by nlinarith)
  have hm1l : 0 ≤ roundToDouble ((v:ℚ) * D05) := roundToDouble_nonneg (by positivity)
  have hm2 := roundToDouble_close (q := (sg:ℚ) * D03) (by positivity) (by nlinarith)
  have hm2l : 0 ≤ roundToDouble ((sg:ℚ) * D03) := roundToDouble_nonneg (by positivity)
  have haddarg : (0:ℚ) ≤ roundToDouble ((v:ℚ) * D05) + roundToDouble ((sg:ℚ) * D03) := by
    linarith
  have hadd := roundToDouble_close
    (q := roundToDouble ((v:ℚ) * D05) + roundToDouble ((sg:ℚ) * D03))
    haddarg (by linarith [hm1.2, hm2.2, heps])
  have haddl : 0 ≤ roundToDouble (roundToDouble ((v:ℚ) * D05) + roundToDouble ((sg:ℚ) * D03)) :=
    roundToDouble_nonneg haddarg
  have hresarg : (0:ℚ) ≤ b2 + roundToDouble
      (roundToDouble ((v:ℚ) * D05) + roundToDouble ((sg:ℚ) * D03)) := by linarith
  have hres := roundToDouble_close
    (q := b2 + roundToDouble (roundToDouble ((v:ℚ) * D05) + roundToDouble ((sg:ℚ) * D03)))
    hresarg (by linarith [hm1.2, hm2.2, hadd.2, heps])
  rw [round_eq]
  have hlt : roundToDouble (b2 + roundToDouble
      (roundToDouble ((v:ℚ) * D05) + roundToDouble ((sg:ℚ) * D03))) + 1/2
      < ((12:Int):ℚ) := by
    push_cast
    linarith [hm1.2, hm2.2, hadd.2, hres.2, heps]
  have := Int.floor_lt.mpr hlt
  omega

/-- The rounded adjusted estimate of a duplicate-free hand is at most 11:
    estimate at most 7, spade adjustments at most 2, void and singleton
    adjustments at most 2.04 plus rounding error. -/
lemma round_adjustedEstimate_le (hand : List Card) (hnd : hand.Nodup) :
    round (adjustedEstimate hand) ≤ 11 := by
  have hest := estimateMinTricks_le hand hnd
  have hest0 := estimateMinTricks_nonneg hand
  have hvs : (SUITS.filter fun s => countSuits hand s = 0).length +
      (SUITS.filter fun s => countSuits hand s = 1).length ≤ 4 := by
    have h := length_filter_add_length_filter_le SUITS
      (fun s => countSuits hand s = 0) (fun s => countSuits hand s = 1)
      (fun s => by simp only [decide_eq_true_eq]; omega)
    simpa [SUITS] using h
  simp only [adjustedEstimate]
  apply round_dadd_tail_le _ _ _ ?_ ?_ hvs
  · split_ifs <;> push_cast <;>
      have h0 : ((0:Int):ℚ) ≤ (estimateMinTricks hand : ℚ) := by exact_mod_cast hest0
    all_goals push_cast at h0
    all_goals linarith
  · split_ifs <;> push_cast <;>
      have h7 : (estimateMinTricks hand : ℚ) ≤ ((7:Int):ℚ) := by exact_mod_cast hest
    all_goals push_cast at h7
    all_goals linarith

/-- Modelled from the spec: the medium AI bid is the rounded adjusted
    estimate, reduced by 1 if the team total (own bid plus partner bid,
    nil or blind-nil partner bids counted as 0) exceeds 11, clamped to
    the range 1..13.  The adjusted estimate is the binary64 value the
    code computes. -/
def mediumBidSpec (hand : List Card) (partnerBid : Option Int) : Int :=
  let b := round (adjustedEstimate hand)
  let b' :=
    match partnerBid with
    | none => b
    | some pb => if b + (if pb < 0 then 0 else pb) > 11 then b - 1 else b
  clampBid b'

/-- `estimateMinTricks` re-read with exact rational arithmetic in place of
    the binary64 arithmetic of the source: the reading under which the
    spec formula `aces + 0.7*protectedKings + 0.3*highSpades` is evaluated
    without rounding error. -/
def estimateMinTricksExact (hand : List Card) : Int :=
  let aces := (hand.filter fun c => c.rank = A).length
  let protectedKings :=
    (hand.filter fun c => c.rank = K ∧ countSuits hand c.suit ≥ 2).length
  let highSpades :=
    (hand.filter fun c => c.suit = spades ∧ RANK_VALUES c.rank ≥ 12).length
  ⌊(aces : ℚ) + (protectedKings : ℚ) * (7 / 10) + (highSpades : ℚ) * (3 / 10)⌋

/-- The adjusted estimate with exact rational arithmetic. -/
def adjustedEstimateExact (hand : List Card) : ℚ :=
  let spadeCount := countSpades hand
  let base0 : ℚ := (estimateMinTricksExact hand : ℚ)
  let base1 := if spadeCount ≥ 4 then base0 + 1 else base0
  let base2 := if spadeCount ≥ 6 then base1 + 1 else base1
  let voids := (SUITS.filter fun s => countSuits hand s = 0).length
  let singletons := (SUITS.filter fun s => countSuits hand s = 1).length
  base2 + (voids : ℚ) * (1 / 2) + (singletons : ℚ) * (3 / 10)

/-- The medium bid as the spec formula reads under exact arithmetic:
    rounded exact adjusted estimate, reduced by 1 if the team total
    exceeds 11, clamped to 1..13. -/
def mediumBidSpecExact (hand : List Card) (partnerBid : Option Int) : Int :=
  let b := round (adjustedEstimateExact hand)
  let b' :=
    match partnerBid with
    | none => b
    | some pb => if b + (if pb < 0 then 0 else pb) > 11 then b - 1 else b
  clampBid b'

/-- A dealable hand (13 distinct cards) on which binary64 rounding changes
    the medium bid: ace, king, queen of spades, protected kings of hearts
    and diamonds, six low clubs. -/
def exampleBidHand : List Card :=
  [⟨spades, A⟩, ⟨spades, K⟩, ⟨spades, Q⟩,
   ⟨hearts, K⟩, ⟨hearts, two⟩,
   ⟨diamonds, K⟩, ⟨diamonds, two⟩,
   ⟨clubs, two⟩, ⟨clubs, three⟩, ⟨clubs, four⟩,
   ⟨clubs, five⟩, ⟨clubs, six⟩, ⟨clubs, seven⟩]

/-- On the example hand the code computes
    `floor(1 + 3*0.7 + 3*0.3) = floor(3.9999999999999996) = 3`
    in binary64, not the exact `floor(4) = 4`. -/
lemma estimateMinTricks_exampleBidHand : estimateMinTricks exampleBidHand = 3 := by
  have h1 : ((exampleBidHand.filter fun c => c.rank = A).length) = 1 := by decide
  have h2 : ((exampleBidHand.filter fun c =>
      c.rank = K ∧ countSuits exampleBidHand c.suit ≥ 2).length) = 3 := by decide
  have h3 : ((exampleBidHand.filter fun c =>
      c.suit = spades ∧ RANK_VALUES c.rank ≥ 12).length) = 3 := by decide
  simp only [estimateMinTricks, h1, h2, h3]
  push_cast
  rw [dmul_3_D07, dadd_1_3D07, dmul_3_D03, dadd_final, floor_final]

/-- The medium bid the code returns on the example hand. -/
lemma calculateAIBid_exampleBidHand :
    calculateAIBid exampleBidHand none Difficulty.medium 0 0 = 3 := by
  have hadj : adjustedEstimate exampleBidHand = 3 := by
    have hsc : countSpades exampleBidHand = 3 := by decide
    have hv : ((SUITS.filter fun s => countSuits exampleBidHand s = 0).length) = 0 := by
      decide
    have hsg : ((SUITS.filter fun s => countSuits exampleBidHand s = 1).length) = 0 := by
      decide
    simp only [adjustedEstimate, hsc, hv, hsg, estimateMinTricks_exampleBidHand]
    norm_num
    simp only [dmul, zero_mul, roundToDouble_zero, dadd, add_zero]
    exact roundToDouble_3
  simp only [calculateAIBid, hadj]
  rw [round_eq]
  norm_num
  rw [clampBid]
  norm_num

/-- The exact-arithmetic spec formula on the example hand. -/
lemma mediumBidSpecExact_exampleBidHand :
    mediumBidSpecExact exampleBidHand none = 4 := by
  have h1 : ((exampleBidHand.filter fun c => c.rank = A).length) = 1 := by decide
  have h2 : ((exampleBidHand.filter fun c =>
      c.rank = K ∧ countSuits exampleBidHand c.suit ≥ 2).length) = 3 := by decide
  have h3 : ((exampleBidHand.filter fun c =>
      c.suit = spades ∧ RANK_VALUES c.rank ≥ 12).length) = 3 := by decide
  have hest : estimateMinTricksExact exampleBidHand = 4 := by
    simp only [estimateMinTricksExact, h1, h2, h3]
    push_cast
    norm_num
  have hadj : adjustedEstimateExact exampleBidHand = 4 := by
    have hsc : countSpades exampleBidHand = 3 := by decide
    have hv : ((SUITS.filter fun s => countSuits exampleBidHand s = 0).length) = 0 := by
      decide
    have hsg : ((SUITS.filter fun s => countSuits exampleBidHand s = 1).length) = 0 := by
      decide
    simp only [adjustedEstimateExact, hsc, hv, hsg, hest]
    norm_num
  simp only [mediumBidSpecExact, hadj]
  rw [round_eq]
  norm_num
  rw [clampBid]
  norm_num

/-- Counterexample to C7: on a dealable 13-card hand with one ace, three
    protected kings and three high spades, binary64 arithmetic gives
    `1 + 2.0999999999999996 + 0.8999999999999999 = 3.9999999999999996`,
    so the code bids 3 at medium difficulty while the exact rounded
    adjusted estimate of the claim is 4. -/
theorem calculateAIBid_medium_counterexample :
    calculateAIBid exampleBidHand none Difficulty.medium 0 0 = 3 ∧
      mediumBidSpecExact exampleBidHand none = 4 :=
  ⟨calculateAIBid_exampleBidHand, mediumBidSpecExact_exampleBidHand⟩

/-- C7 amended.  For every duplicate-free hand and every partner bid, the
    medium AI bid equals the spec formula evaluated over the binary64
    estimate the code computes: rounded adjusted estimate, reduced by 1
    when the team total (partner nil and blind-nil counted as 0) exceeds
    11, clamped to 1..13.  Under exact rational arithmetic the claim fails
    on `exampleBidHand`. -/
theorem calculateAIBid_medium_spec (hand : List Card) (partnerBid : Option Int)
    (rEasy rNil : ℚ) (hnd : hand.Nodup) :
    calculateAIBid hand partnerBid Difficulty.medium rEasy rNil =
      mediumBidSpec hand partnerBid := by
  have hb := round_adjustedEstimate_le hand hnd
  rcases partnerBid with _ | pb
  · simp only [calculateAIBid, mediumBidSpec]
  · simp only [calculateAIBid, mediumBidSpec]
    by_cases hpb : 0 ≤ pb
    · rw [if_neg (not_lt.mpr hpb)]
      by_cases hgt : round (adjustedEstimate hand) + pb > 11
      · rw [if_pos ⟨hpb, hgt⟩, if_pos hgt]
        unfold clampBid
        omega
      · rw [if_neg fun hcon => hgt hcon.2, if_neg hgt]
    · rw [if_pos (not_le.mp hpb), if_neg fun hcon => hpb hcon.1,
        if_neg (by omega : ¬ round (adjustedEstimate hand) + 0 > 11)]

/-- Witness for C7 at a concrete duplicate-free hand with partner bid 3. -/
theorem calculateAIBid_medium_spec_witness :
    calculateAIBid
      [⟨Suit.spades, Rank.A⟩, ⟨Suit.spades, Rank.K⟩, ⟨Suit.hearts, Rank.A⟩,
       ⟨Suit.hearts, Rank.K⟩, ⟨Suit.hearts, Rank.Q⟩]
      (some 3) Difficulty.medium 0 0 =
      mediumBidSpec
        [⟨Suit.spades, Rank.A⟩, ⟨Suit.spades, Rank.K⟩, ⟨Suit.hearts, Rank.A⟩,
         ⟨Suit.hearts, Rank.K⟩, ⟨Suit.hearts, Rank.Q⟩] (some 3) :=
  calculateAIBid_medium_spec _ (some 3) 0 0 (by decide)

/-! ## C8: dealing -/

lemma cardLE_trans : ∀ (a b c : Card),
    cardLE a b → cardLE b c → cardLE a c := by
  intro a b c hab hbc
  simp only [cardLE, decide_eq_true_eq] at *
  omega

lemma cardLE_total : ∀ (a b : Card), cardLE a b || cardLE b a := by
  intro a b
  simp only [cardLE, Bool.or_eq_true, decide_eq_true_eq]
  omega

lemma sortHand_perm (cards : List Card) : (sortHand cards).Perm cards :=
  List.mergeSort_perm cards cardLE

lemma sortHand_sorted (cards : List Card) :
    (sortHand cards).Pairwise fun a b => cardLE a b = true := by
  have h := List.sorted_mergeSort
    (fun a b c hab hbc => cardLE_trans a b c hab hbc)
    (fun a b => cardLE_total a b) cards
  exact h

lemma deal4_lengths (l : List Card) :
    (deal4 l).1.length = (l.length + 3) / 4 ∧
    (deal4 l).2.1.length = (l.length + 2) / 4 ∧
    (deal4 l).2.2.1.length = (l.length + 1) / 4 ∧
    (deal4 l).2.2.2.length = l.length / 4 := by
  induction l with
  | nil => simp [deal4]
  | cons a t ih =>
    obtain ⟨ih1, ih2, ih3, ih4⟩ := ih
    simp only [deal4, List.length_cons]
    refine ⟨?_, ?_, ?_, ?_⟩ <;> omega

lemma deal4_join_perm (l : List Card) :
    ((deal4 l).1 ++ (deal4 l).2.1 ++ (deal4 l).2.2.1 ++ (deal4 l).2.2.2).Perm l := by
  induction l with
  | nil => simp [deal4]
  | cons a t ih =>
    rcases hdt : deal4 t with ⟨h0, h1, h2, h3⟩
    rw [hdt] at ih
    simp only at ih
    simp only [deal4, hdt, List.cons_append, List.append_assoc] at ih ⊢
    refine List.Perm.cons a ?_
    have ih' : ((h0 ++ (h1 ++ h2)) ++ h3).Perm t := by
      simpa [List.append_assoc] using ih
    exact (List.perm_append_comm).trans ih'

/-- C8.  For every shuffled deck (any permutation of the fresh deck),
    `dealCards` yields four hands of 13 cards each, jointly a permutation
    of the 52 distinct cards with no card in two hands, each hand sorted
    by suit (spades, hearts, diamonds, clubs) and by descending rank
    within a suit. -/
theorem dealCards_spec (deck : List Card) (hperm : deck.Perm createDeck) :
    ((dealCards deck).south.length = 13 ∧ (dealCards deck).west.length = 13 ∧
     (dealCards deck).north.length = 13 ∧ (dealCards deck).east.length = 13) ∧
    ((dealCards deck).south ++ (dealCards deck).west ++
      (dealCards deck).north ++ (dealCards deck).east).Perm createDeck ∧
    ((dealCards deck).south ++ (dealCards deck).west ++
      (dealCards deck).north ++ (dealCards deck).east).Nodup ∧
    createDeck.length = 52 ∧ createDeck.Nodup ∧
    ((dealCards deck).south.Pairwise fun a b => cardLE a b = true) ∧
    ((dealCards deck).west.Pairwise fun a b => cardLE a b = true) ∧
    ((dealCards deck).north.Pairwise fun a b => cardLE a b = true) ∧
    ((dealCards deck).east.Pairwise fun a b => cardLE a b = true) := by
  have hlen : deck.length = 52 := by
    rw [hperm.length_eq]
    rfl
  have hl := deal4_lengths deck
  have hj := deal4_join_perm deck
  have hnodup : createDeck.Nodup := by decide
  have hjoin : ((dealCards deck).south ++ (dealCards deck).west ++
      (dealCards deck).north ++ (dealCards deck).east).Perm createDeck := by
    simp only [dealCards]
    refine List.Perm.trans ?_ (hj.trans hperm)
    exact ((((sortHand_perm _).append (sortHand_perm _)).append
      (sortHand_perm _)).append (sortHand_perm _))
  refine ⟨⟨?_, ?_, ?_, ?_⟩, hjoin, hjoin.nodup_iff.mpr hnodup, rfl, hnodup,
    sortHand_sorted _, sortHand_sorted _, sortHand_sorted _, sortHand_sorted _⟩
  · show (sortHand (deal4 deck).1).length = 13
    rw [(sortHand_perm _).length_eq, hl.1, hlen]
  · show (sortHand (deal4 deck).2.1).length = 13
    rw [(sortHand_perm _).length_eq, hl.2.1, hlen]
  · show (sortHand (deal4 deck).2.2.1).length = 13
    rw [(sortHand_perm _).length_eq, hl.2.2.1, hlen]
  · show (sortHand (deal4 deck).2.2.2).length = 13
    rw [(sortHand_perm _).length_eq, hl.2.2.2, hlen]

/-- Witness for C8 at the unshuffled fresh deck. -/
theorem dealCards_spec_witness :
    ((dealCards createDeck).south.length = 13 ∧
     (dealCards createDeck).west.length = 13 ∧
     (dealCards createDeck).north.length = 13 ∧
     (dealCards createDeck).east.length = 13) ∧
    ((dealCards createDeck).south ++ (dealCards createDeck).west ++
      (dealCards createDeck).north ++ (dealCards createDeck).east).Perm createDeck ∧
    ((dealCards createDeck).south ++ (dealCards createDeck).west ++
      (dealCards createDeck).north ++ (dealCards createDeck).east).Nodup ∧
    createDeck.length = 52 ∧ createDeck.Nodup ∧
    ((dealCards createDeck).south.Pairwise fun a b => cardLE a b = true) ∧
    ((dealCards createDeck).west.Pairwise fun a b => cardLE a b = true) ∧
    ((dealCards createDeck).north.Pairwise fun a b => cardLE a b = true) ∧
    ((dealCards createDeck).east.Pairwise fun a b => cardLE a b = true) :=
  dealCards_spec createDeck (List.Perm.refl createDeck)

/-! ## C10: AI card selection is always legal -/

lemma findLowestCard_spec (l : List Card) (hl : l ≠ []) :
    ∃ c, findLowestCard l = some c ∧ c ∈ l := by
  cases l with
  | nil => exact absurd rfl hl
  | cons c0 rest =>
    refine ⟨_, rfl, ?_⟩
    rcases foldl_choice_mem
      (fun lowest card =>
        if RANK_VALUES card.rank < RANK_VALUES lowest.rank then card else lowest)
      (fun a b => by dsimp only; split_ifs <;> simp) (c0 :: rest) c0 with heq | hmem
    · rw [heq]
      exact List.mem_cons_self _ _
    · exact hmem

lemma findHighestCard_spec (l : List Card) (hl : l ≠ []) :
    ∃ c, findHighestCard l = some c ∧ c ∈ l := by
  cases l with
  | nil => exact absurd rfl hl
  | cons c0 rest =>
    refine ⟨_, rfl, ?_⟩
    rcases foldl_choice_mem
      (fun highest card =>
        if RANK_VALUES card.rank > RANK_VALUES highest.rank then card else highest)
      (fun a b => by dsimp only; split_ifs <;> simp) (c0 :: rest) c0 with heq | hmem
    · rw [heq]
      exact List.mem_cons_self _ _
    · exact hmem

lemma get_zero_spec (l : List Card) (hl : l ≠ []) :
    ∃ c, l.get? 0 = some c ∧ c ∈ l := by
  cases l with
  | nil => exact absurd rfl hl
  | cons c0 rest => exact ⟨c0, rfl, List.mem_cons_self _ _⟩

lemma randIndex_spec (l : List Card) (r : ℚ) (hl : l ≠ [])
    (h0 : 0 ≤ r) (h1 : r < 1) :
    ∃ c, randIndex l r = some c ∧ c ∈ l := by
  have hlen : 0 < l.length := List.length_pos.mpr hl
  have hge : 0 ≤ ⌊r * (l.length : ℚ)⌋ := Int.floor_nonneg.mpr (by positivity)
  have hlt : ⌊r * (l.length : ℚ)⌋ < (l.length : Int) := by
    apply Int.floor_lt.mpr
    have hc : (0 : ℚ) < (l.length : ℚ) := by exact_mod_cast hlen
    have := mul_lt_mul_of_pos_right h1 hc
    simpa using this
  have hnat : (⌊r * (l.length : ℚ)⌋).toNat < l.length := by omega
  refine ⟨l.get ⟨_, hnat⟩, ?_, List.get_mem l _ _⟩
  simp [randIndex, List.get?_eq_get hnat]

lemma getHighestInTrick_isSome (t : Trick) (h : t.cards ≠ []) :
    ∃ p, getHighestInTrick t = some p := by
  cases hc : t.cards with
  | nil => exact absurd hc h
  | cons p rest =>
    refine ⟨(p :: rest).foldl (ghStep t.leadSuit) p, ?_⟩
    unfold getHighestInTrick
    rw [hc]

lemma selectEasyCard_mem (vp : List Card) (rc ri : ℚ) (hvp : vp ≠ [])
    (h0 : 0 ≤ ri) (h1 : ri < 1) :
    ∃ c, selectEasyCard vp rc ri = some c ∧ c ∈ vp := by
  unfold selectEasyCard
  rw [if_neg hvp]
  split_ifs
  · exact randIndex_spec vp ri hvp h0 h1
  · exact findLowestCard_spec vp hvp

lemma selectMediumCard_mem (vp : List Card) (trick : Option Trick) (rc ri : ℚ)
    (hvp : vp ≠ []) (h0 : 0 ≤ ri) (h1 : ri < 1) :
    ∃ c, selectMediumCard vp trick rc ri = some c ∧ c ∈ vp := by
  unfold selectMediumCard
  rw [if_neg hvp]
  by_cases hone : vp.length = 1
  · rw [if_pos hone]
    exact get_zero_spec vp hvp
  · rw [if_neg hone]
    by_cases hlead : isLeadingNow trick false = true
    · rw [if_pos hlead]
      by_cases hns : (nonSpades vp).length > 0
      · rw [if_pos hns]
        have hsne : (nonSpades vp).mergeSort
            (fun a b => decide (RANK_VALUES b.rank ≤ RANK_VALUES a.rank)) ≠ [] := by
          apply List.ne_nil_of_length_pos
          rw [List.length_mergeSort]
          exact hns
        have hsub : ∀ c ∈ (nonSpades vp).mergeSort
            (fun a b => decide (RANK_VALUES b.rank ≤ RANK_VALUES a.rank)), c ∈ vp :=
          fun c hc => nonSpades_subset vp c (List.mem_mergeSort.mp hc)
        split_ifs
        · obtain ⟨c, hc, hmem⟩ := get_zero_spec _ hsne
          exact ⟨c, hc, hsub c hmem⟩
        · obtain ⟨c, hc, hmem⟩ := randIndex_spec _ ri hsne h0 h1
          exact ⟨c, hc, hsub c hmem⟩
      · rw [if_neg hns]
        exact get_zero_spec vp hvp
    · rw [if_neg hlead]
      rcases trick with _ | t
      · simp [isLeadingNow] at hlead
      · have hcards : t.cards ≠ [] := by
          intro he
          exact hlead (by simp [isLeadingNow, he])
        obtain ⟨hp, hhp⟩ := getHighestInTrick_isSome t hcards
        dsimp only
        rw [hhp]
        dsimp only
        by_cases hw : (vp.filter (canBeat hp)).length > 0
        · rw [if_pos hw]
          obtain ⟨c, hc, hmem⟩ :=
            findLowestCard_spec _ (List.ne_nil_of_length_pos hw)
          exact ⟨c, hc, (List.mem_filter.mp hmem).1⟩
        · rw [if_neg hw]
          exact findLowestCard_spec vp hvp

lemma selectHardLead_mem (vp : List Card) (player : Player) (hvp : vp ≠ []) :
    ∃ c, selectHardLead vp player = some c ∧ c ∈ vp := by
  unfold selectHardLead
  rw [if_neg hvp]
  by_cases hone : vp.length = 1
  · rw [if_pos hone]
    exact get_zero_spec vp hvp
  · rw [if_neg hone]
    dsimp only
    by_cases hneed : bidOrZero player.bid - player.tricksWon ≤ 0
    · rw [if_pos hneed]
      exact findLowestCard_spec vp hvp
    · rw [if_neg hneed]
      rcases haces : vp.filter (fun c => c.rank = A ∧ ¬ c.suit = spades) with _ | ⟨a, rest⟩
      · rw [haces]
        dsimp only [List.tail_cons]
        by_cases hlong : (vp.filter fun c =>
            c.suit = (([(hearts, countSuits vp hearts),
              (diamonds, countSuits vp diamonds),
              (clubs, countSuits vp clubs)].foldl
                (fun a b => if b.2 > a.2 then b else a)
                (spades, countSuits vp spades)).1)).length > 0
        · rw [if_pos hlong]
          obtain ⟨c, hc, hmem⟩ :=
            findHighestCard_spec _ (List.ne_nil_of_length_pos hlong)
          exact ⟨c, hc, (List.mem_filter.mp hmem).1⟩
        · rw [if_neg hlong]
          exact get_zero_spec vp hvp
      · rw [haces]
        refine ⟨a, rfl, ?_⟩
        have ha : a ∈ vp.filter (fun c => c.rank = A ∧ ¬ c.suit = spades) := by
          rw [haces]
          exact List.mem_cons_self _ _
        exact (List.mem_filter.mp ha).1

lemma selectHardFollow_mem (vp : List Card) (t : Trick) (player : Player)
    (hvp : vp ≠ []) (hcards : t.cards ≠ []) :
    ∃ c, selectHardFollow vp t player = some c ∧ c ∈ vp := by
  unfold selectHardFollow
  rw [if_neg hvp]
  by_cases hone : vp.length = 1
  · rw [if_pos hone]
    exact get_zero_spec vp hvp
  · rw [if_neg hone]
    obtain ⟨hp, hhp⟩ := getHighestInTrick_isSome t hcards
    rw [hhp]
    dsimp only
    split_ifs with hpw hw hneed
    · exact findLowestCard_spec vp hvp
    · obtain ⟨c, hc, hmem⟩ :=
        findLowestCard_spec _ (List.ne_nil_of_length_pos hw)
      exact ⟨c, hc, (List.mem_filter.mp hmem).1⟩
    · exact findLowestCard_spec vp hvp
    · exact findLowestCard_spec vp hvp

lemma selectHardCard_mem (vp : List Card) (trick : Option Trick)
    (context : AIContext) (hvp : vp ≠ []) :
    ∃ c, selectHardCard vp trick context = some c ∧ c ∈ vp := by
  unfold selectHardCard
  by_cases hlead : isLeadingNow trick false = true
  · rw [if_pos hlead]
    exact selectHardLead_mem vp context.player hvp
  · rw [if_neg hlead]
    rcases trick with _ | t
    · simp [isLeadingNow] at hlead
    · have hcards : t.cards ≠ [] := by
        intro he
        exact hlead (by simp [isLeadingNow, he])
      dsimp only
      exact selectHardFollow_mem vp t context.player hvp hcards

/-- C10.  For every AI context with a non-empty hand and every outcome of
    the random draws, `selectAICard` (at every difficulty) returns a card
    belonging to `getValidPlays` of that hand, trick and spades-broken
    flag; in particular the valid-play set is non-empty, so the defensive
    fallback for an empty valid-play set is unreachable. -/
theorem selectAICard_legal (context : AIContext) (rc ri : ℚ)
    (hhand : context.player.hand ≠ []) (h0 : 0 ≤ ri) (h1 : ri < 1) :
    getValidPlays context.player.hand context.currentTrick context.spadesBroken
        (isLeadingNow context.currentTrick false) ≠ [] ∧
    ∃ c, selectAICard context rc ri = some c ∧
      c ∈ getValidPlays context.player.hand context.currentTrick
        context.spadesBroken (isLeadingNow context.currentTrick false) := by
  have hne : getValidPlays context.player.hand context.currentTrick
      context.spadesBroken (isLeadingNow context.currentTrick false) ≠ [] :=
    getValidPlays_ne_nil _ _ _ _ hhand
  refine ⟨hne, ?_⟩
  unfold selectAICard
  rw [if_neg hhand, if_neg hne]
  by_cases hone : (getValidPlays context.player.hand context.currentTrick
      context.spadesBroken (isLeadingNow context.currentTrick false)).length = 1
  · rw [if_pos hone]
    exact get_zero_spec _ hne
  · rw [if_neg hone]
    cases context.difficulty with
    | easy => exact selectEasyCard_mem _ rc ri hne h0 h1
    | medium => exact selectMediumCard_mem _ context.currentTrick rc ri hne h0 h1
    | hard => exact selectHardCard_mem _ context.currentTrick context hne

/-- Concrete AI context for the C10 witness: medium difficulty, hand with
    a spade and a heart, a heart led by south, spades not broken. -/
def witnessContext : AIContext :=
  { player :=
      { position := PlayerPosition.west
        hand := [⟨Suit.spades, Rank.two⟩, ⟨Suit.hearts, Rank.A⟩]
        bid := some 3
        tricksWon := 0 }
    partner :=
      { position := PlayerPosition.east
        hand := []
        bid := some 2
        tricksWon := 0 }
    currentTrick := some { cards := [⟨⟨Suit.hearts, Rank.K⟩, PlayerPosition.south⟩],
                           leadSuit := Suit.hearts }
    spadesBroken := false
    difficulty := Difficulty.medium
    cardsPlayed := []
    roundTricks := 0 }

/-- Witness for C10 at a concrete context and random draws. -/
theorem selectAICard_legal_witness :
    getValidPlays witnessContext.player.hand witnessContext.currentTrick
        witnessContext.spadesBroken
        (isLeadingNow witnessContext.currentTrick false) ≠ [] ∧
    ∃ c, selectAICard witnessContext (1 / 2) 0 = some c ∧
      c ∈ getValidPlays witnessContext.player.hand witnessContext.currentTrick
        witnessContext.spadesBroken
        (isLeadingNow witnessContext.currentTrick false) :=
  selectAICard_legal witnessContext (1 / 2) 0 (by decide) (by norm_num) (by norm_num)

end Spades
